import Mathlib

/-!
Verification of the fraud-detection core of the property_eye_backend
repository: a shallow embedding, in Lean, of the address normalizer
(src/services/address_normalizer.py), the Stage-2 verification service
(src/services/verification_service.py) and the ingest guard described by the
specification, together with proofs of the stated properties.

Strings are modelled as `List Char`.  Character classes follow the ASCII
reading of the Python regexes: whitespace is the set matched by a Python
whitespace class, and a word character is an ASCII letter, digit or
underscore.  Rational numbers stand in for the similarity scores.
-/

namespace PropertyEye

/-- Characters treated as whitespace (the ASCII subset of a Python
whitespace regex class and of the default argument of str.strip). -/
def isWsChar (c : Char) : Bool :=
  c = ' ' || c = '\t' || c = '\n' || c = '\r' || c = '\x0b' || c = '\x0c'

/-- A regex word character (ASCII reading): letter, digit or underscore. -/
def isWordChar (c : Char) : Bool :=
  c.isAlphanum || c = '_'

/-- One step of a whitespace-run collapse: models replacing every maximal
whitespace run by a single space, as the substitution of a whitespace-class
regex by a single space does. -/
def collapseWs : List Char → List Char
  | [] => []
  | [c] => [if isWsChar c then ' ' else c]
  | c :: d :: rest =>
    if isWsChar c && isWsChar d then collapseWs (d :: rest)
    else (if isWsChar c then ' ' else c) :: collapseWs (d :: rest)

/-- Remove leading whitespace. -/
def lstrip (s : List Char) : List Char := s.dropWhile isWsChar

/-- Remove trailing whitespace. -/
def rstrip (s : List Char) : List Char := (s.reverse.dropWhile isWsChar).reverse

/-- Python str.strip(): remove leading and trailing whitespace. -/
def strip (s : List Char) : List Char := rstrip (lstrip s)

/-- The three punctuation replacements of AddressNormalizer.normalize:
commas, dots and hyphens each become a space. -/
def replacePunct (s : List Char) : List Char :=
  s.map fun c => if c = ',' || c = '.' || c = '-' then ' ' else c

/-- Does the pattern match at the head of `s`, with a word boundary after it?
(The boundary before the head position is handled by the caller's scan
state.) -/
def boundaryAfter (pat s : List Char) : Bool :=
  match s.drop pat.length with
  | [] => true
  | d :: _ => !isWordChar d

/-- `pat` occurs at the start of `s` and is followed by a word boundary. -/
def headMatch (pat s : List Char) : Bool :=
  pat.isPrefixOf s && boundaryAfter pat s

/-- Scan of a word-boundary-delimited regex substitution
(re.sub of a word-bounded literal pattern by `repl`), scanning left to right
without rescanning replacements.  `prev` records whether the previous
character of the original string was a word character (so a match is allowed
only when `prev` is false); `skip` counts original characters still to be
consumed for a match already replaced. -/
def subWordAux (pat repl : List Char) : Bool → Nat → List Char → List Char
  | _, _, [] => []
  | prev, Nat.succ k, _ :: cs => subWordAux pat repl prev k cs
  | prev, 0, c :: cs =>
    if !prev && headMatch pat (c :: cs) then
      repl ++ subWordAux pat repl (isWordChar (pat.getLastD 'A')) (pat.length - 1) cs
    else
      c :: subWordAux pat repl (isWordChar c) 0 cs

/-- re.sub of the word-bounded literal pattern `pat` by `repl` over `s`. -/
def subWord (pat repl s : List Char) : List Char :=
  subWordAux pat repl false 0 s

/-- Does the word-bounded pattern match anywhere in `s`, given the scan
state `prev`? -/
def hasMatchAux (pat : List Char) : Bool → List Char → Bool
  | _, [] => false
  | prev, c :: cs => (!prev && headMatch pat (c :: cs)) || hasMatchAux pat (isWordChar c) cs

/-- Does the word-bounded pattern match anywhere in `s`? -/
def hasMatch (pat s : List Char) : Bool := hasMatchAux pat false s

/-- The abbreviation table of AddressNormalizer, in its iteration order:
standard term to the list of accepted abbreviations. -/
def ABBREVIATION_MAP : List (List Char × List (List Char)) :=
  [ ("STREET".toList, ["ST".toList, "STR".toList, "STRT".toList])
  , ("ROAD".toList, ["RD".toList])
  , ("AVENUE".toList, ["AVE".toList, "AV".toList])
  , ("DRIVE".toList, ["DR".toList, "DRV".toList])
  , ("LANE".toList, ["LN".toList])
  , ("COURT".toList, ["CT".toList, "CRT".toList])
  , ("PLACE".toList, ["PL".toList])
  , ("SQUARE".toList, ["SQ".toList, "SQR".toList])
  , ("TERRACE".toList, ["TER".toList, "TERR".toList])
  , ("GARDENS".toList, ["GDNS".toList, "GDN".toList])
  , ("CLOSE".toList, ["CL".toList])
  , ("CRESCENT".toList, ["CRES".toList, "CR".toList])
  , ("GROVE".toList, ["GR".toList, "GRV".toList])
  , ("PARK".toList, ["PK".toList])
  , ("WAY".toList, ["WY".toList])
  , ("FLAT".toList, ["FL".toList, "APT".toList, "APARTMENT".toList])
  , ("HOUSE".toList, ["HSE".toList])
  , ("BUILDING".toList, ["BLDG".toList, "BLD".toList])
  , ("FLOOR".toList, ["FLR".toList])
  , ("NORTH".toList, ["N".toList])
  , ("SOUTH".toList, ["S".toList])
  , ("EAST".toList, ["E".toList])
  , ("WEST".toList, ["W".toList]) ]

/-- The substitutions performed by the abbreviation loop, flattened in
iteration order: (abbreviation pattern, standard replacement). -/
def abbrevSubs : List (List Char × List Char) :=
  (ABBREVIATION_MAP.map fun p => p.2.map fun ab => (ab, p.1)).flatten

/-- The abbreviation-standardisation loop of AddressNormalizer.normalize. -/
def expandAbbreviations (s : List Char) : List Char :=
  abbrevSubs.foldl (fun acc p => subWord p.1 p.2 acc) s

/-- AddressNormalizer.normalize without the postcode step: uppercase,
collapse whitespace and strip, replace punctuation by spaces, standardise
abbreviations, collapse whitespace and strip again. -/
def normalizeCore (address : List Char) : List Char :=
  strip (collapseWs (expandAbbreviations (replacePunct
    (strip (collapseWs (address.map Char.toUpper))))))

/-- The first two steps of _format_postcode: remove every space character
and uppercase (postcode.replace then upper in the code). -/
def stripSpacesUpper (postcode : List Char) : List Char :=
  (postcode.filter fun c => c ≠ ' ').map Char.toUpper

/-- AddressNormalizer._format_postcode: drop spaces, uppercase, and insert
one space before the last three characters when the result is 5 to 7
characters long. -/
def format_postcode (postcode : List Char) : List Char :=
  if postcode = [] then []
  else if (stripSpacesUpper postcode).length < 5 ||
          7 < (stripSpacesUpper postcode).length then
    stripSpacesUpper postcode
  else
    (stripSpacesUpper postcode).take ((stripSpacesUpper postcode).length - 3)
      ++ ' ' :: (stripSpacesUpper postcode).drop
          ((stripSpacesUpper postcode).length - 3)

/-- The postcode formatting rule restated declaratively over the code's own
space-stripping step (the code removes only the space character, via
postcode.replace, not the whole whitespace class): uppercase with spaces
removed, insert one space 3 characters from the end when the stripped
length is between 5 and 7, and otherwise pass the (space-stripped,
uppercased) postcode through unchanged.  Stated for comparison with
format_postcode. -/
def format_postcode_spec (postcode : List Char) : List Char :=
  if 5 ≤ (stripSpacesUpper postcode).length ∧
     (stripSpacesUpper postcode).length ≤ 7 then
    (stripSpacesUpper postcode).take ((stripSpacesUpper postcode).length - 3)
      ++ ' ' :: (stripSpacesUpper postcode).drop
          ((stripSpacesUpper postcode).length - 3)
  else stripSpacesUpper postcode

/-- Modelled from the spec: the first two steps of the postcode rule as the
claim words them — strip ALL internal whitespace (the whole whitespace
class, not just the space character) and uppercase.  Stated only to compare
the claim's rule with the code's format_postcode. -/
def stripWsUpper (postcode : List Char) : List Char :=
  (postcode.filter fun c => !isWsChar c).map Char.toUpper

/-- Modelled from the spec: the postcode formatting rule exactly as the
claim words it, with every internal whitespace character stripped before
the length test.  Stated only to compare with format_postcode. -/
def format_postcode_claim (postcode : List Char) : List Char :=
  if 5 ≤ (stripWsUpper postcode).length ∧
     (stripWsUpper postcode).length ≤ 7 then
    (stripWsUpper postcode).take ((stripWsUpper postcode).length - 3)
      ++ ' ' :: (stripWsUpper postcode).drop
          ((stripWsUpper postcode).length - 3)
  else stripWsUpper postcode

/-- Python's substring test (the `in` operator on strings); the empty
string is a substring of every string. -/
def isSubstring : List Char → List Char → Bool
  | needle, [] => needle.isEmpty
  | needle, c :: t => needle.isPrefixOf (c :: t) || isSubstring needle t

/-- AddressNormalizer.normalize. -/
def normalize (address : List Char) (postcode : Option (List Char)) : List Char :=
  if address = [] then []
  else
    let n := normalizeCore address
    match postcode with
    | none => n
    | some [] => n
    | some pc =>
      let fp := format_postcode pc
      if fp ≠ [] && !(isSubstring fp n) then n ++ ' ' :: fp else n

/-- Split a string into its whitespace-separated tokens (empty tokens are
dropped); `cur` holds the characters of the token being read, reversed. -/
def splitTokensAux : List Char → List Char → List (List Char)
  | [], cur => if cur = [] then [] else [cur.reverse]
  | c :: cs, cur =>
    if isWsChar c then
      if cur = [] then splitTokensAux cs [] else cur.reverse :: splitTokensAux cs []
    else splitTokensAux cs (c :: cur)

/-- Whitespace tokenisation used by the token-sort score. -/
def splitTokens (s : List Char) : List (List Char) := splitTokensAux s []

/-- Lexicographic comparison of tokens by code point. -/
def lexLe : List Char → List Char → Bool
  | [], _ => true
  | _ :: _, [] => false
  | a :: as, b :: bs => if a = b then lexLe as bs else decide (a < b)

/-- Insertion into a sorted token list. -/
def insertSorted (t : List Char) : List (List Char) → List (List Char)
  | [] => [t]
  | u :: us => if lexLe t u then t :: u :: us else u :: insertSorted t us

/-- Insertion sort of the token list. -/
def sortTokens : List (List Char) → List (List Char)
  | [] => []
  | t :: ts => insertSorted t (sortTokens ts)

/-- Sort the whitespace-separated tokens and join them with single
spaces, as the token-sort score does before comparing. -/
def tokenSortJoin (s : List Char) : List Char :=
  List.intercalate [' '] (sortTokens (splitTokens s))

/-- Length of a longest common subsequence of two strings. -/
def lcsLen : List Char → List Char → Nat
  | [], _ => 0
  | _ :: _, [] => 0
  | a :: as, b :: bs =>
    if a = b then lcsLen as bs + 1
    else max (lcsLen (a :: as) bs) (lcsLen as (b :: bs))
termination_by a b => a.length + b.length

/-- The normalized InDel similarity of two strings, on the 0..100 scale:
`100 * (1 - dist / (len1 + len2))` where the InDel distance is
`len1 + len2 - 2 * lcs`, so the score equals `100 * 2 * lcs / (len1 + len2)`;
two empty strings score 100. -/
def fuzzScore (a b : List Char) : ℚ :=
  if a.length + b.length = 0 then 100
  else 100 * (2 * lcsLen a b) / (a.length + b.length)

/-- The token-order-insensitive score: sort each side's tokens, join with
spaces, then take the InDel similarity. -/
def token_sort_score (a b : List Char) : ℚ :=
  fuzzScore (tokenSortJoin a) (tokenSortJoin b)

/-- AddressNormalizer.calculate_similarity: 0 when either operand is empty,
otherwise the token-sort score of the two normalized operands. -/
def calculate_similarity (address1 address2 : List Char) : ℚ :=
  if address1 = [] || address2 = [] then 0
  else token_sort_score (normalize address1 none) (normalize address2 none)

/-! ## Stage-2 verification service -/

/-- The listing fields the verification service reads. -/
structure PropertyListing where
  address : String
  client_name : String
deriving DecidableEq

/-- The columns of the FraudMatch model used by Stage 2. -/
structure FraudMatchRow where
  property_listing : PropertyListing
  ppd_full_address : String
  ppd_postcode : String
  verification_status : String
  land_registry_response : Option String
  verified_owner_name : Option String
  is_confirmed_fraud : Bool
  verified_at : Option Nat
deriving DecidableEq

/-- The fraud_matches table: match id to row. -/
def DB := List (String × FraudMatchRow)

/-- Row lookup by match id. -/
def dbGet (db : DB) (id : String) : Option FraudMatchRow :=
  (db.find? fun p => p.1 == id).map Prod.snd

/-- Commit of a mutated row under its match id. -/
def dbSet (db : DB) (id : String) (fm : FraudMatchRow) : DB :=
  db.map fun p => if p.1 == id then (id, fm) else p

/-- Outcome of one call of the ownership-lookup capability: a result whose
status is not "error" (owner name and raw payload), a result whose status is
"error" (carrying the failure reason), or a raised exception. -/
inductive ApiOutcome where
  | success (owner_name : Option String) (raw : Option String)
  | apiError (error_message : Option String) (raw : Option String)
  | exn (msg : String)
deriving DecidableEq

/-- The ownership-lookup capability: address, postcode and expected owner
name to outcome. -/
def ApiClient := String → String → String → ApiOutcome

/-- VerificationService._compare_owner_names: false when either name is
missing or empty, otherwise compare the uppercased, stripped names with
calculate_similarity against the configured threshold. -/
def compare_owner_names (threshold : ℚ) (api_owner_name : Option String)
    (client_name : String) : Bool :=
  match api_owner_name with
  | none => false
  | some o =>
    if o = "" ∨ client_name = "" then false
    else decide (threshold ≤ calculate_similarity
      (strip (o.toList.map Char.toUpper))
      (strip (client_name.toList.map Char.toUpper)))

/-- The per-item result returned for one match id. -/
structure VerificationResult where
  match_id : String
  property_address : String
  client_name : String
  verification_status : String
  verified_owner_name : Option String
  is_confirmed_fraud : Bool
  verified_at : Nat
  error_message : Option String
deriving DecidableEq

/-- The per-item result returned for an id with no row in the database. -/
def notFoundResult (match_id : String) (now : Nat) : VerificationResult :=
  { match_id := match_id, property_address := "Unknown",
    client_name := "Unknown", verification_status := "error",
    verified_owner_name := none, is_confirmed_fraud := false,
    verified_at := now, error_message := some "Match not found in database" }

/-- VerificationService.verify_single_match: look the match up, call the
ownership lookup, and commit the updated row; `now` stands for the
timestamps taken during the call. -/
def verify_single_match (threshold : ℚ) (api : ApiClient) (now : Nat)
    (match_id : String) (db : DB) : VerificationResult × DB :=
  match dbGet db match_id with
  | none => (notFoundResult match_id now, db)
  | some fm =>
    match api fm.ppd_full_address fm.ppd_postcode fm.property_listing.client_name with
    | .exn msg =>
      ({ match_id := match_id, property_address := fm.property_listing.address,
         client_name := fm.property_listing.client_name,
         verification_status := "error", verified_owner_name := none,
         is_confirmed_fraud := false, verified_at := now,
         error_message := some msg },
       dbSet db match_id { fm with verification_status := "error",
                                   is_confirmed_fraud := false,
                                   verified_at := some now })
    | .apiError emsg raw =>
      ({ match_id := match_id, property_address := fm.property_listing.address,
         client_name := fm.property_listing.client_name,
         verification_status := "error", verified_owner_name := none,
         is_confirmed_fraud := false, verified_at := now,
         error_message := emsg },
       dbSet db match_id { fm with land_registry_response := raw,
                                   verified_at := some now,
                                   verification_status := "error",
                                   is_confirmed_fraud := false })
    | .success owner raw =>
      if compare_owner_names threshold owner fm.property_listing.client_name then
        ({ match_id := match_id, property_address := fm.property_listing.address,
           client_name := fm.property_listing.client_name,
           verification_status := "confirmed_fraud",
           verified_owner_name := owner, is_confirmed_fraud := true,
           verified_at := now, error_message := none },
         dbSet db match_id { fm with land_registry_response := raw,
                                     verified_at := some now,
                                     verified_owner_name := owner,
                                     verification_status := "confirmed_fraud",
                                     is_confirmed_fraud := true })
      else
        ({ match_id := match_id, property_address := fm.property_listing.address,
           client_name := fm.property_listing.client_name,
           verification_status := "not_fraud",
           verified_owner_name := owner, is_confirmed_fraud := false,
           verified_at := now, error_message := none },
         dbSet db match_id { fm with land_registry_response := raw,
                                     verified_at := some now,
                                     verified_owner_name := owner,
                                     verification_status := "not_fraud",
                                     is_confirmed_fraud := false })

/-- The summary returned by the batch verification. -/
structure VerificationSummary where
  total_verified : Nat
  confirmed_fraud_count : Nat
  not_fraud_count : Nat
  error_count : Nat
  results : List VerificationResult
  message : String
deriving DecidableEq

/-- One loop iteration's bookkeeping of verify_suspicious_matches: prepend
the per-item result and add its contribution to the three counters
(the if/elif/else over verification_status), threading the database. -/
def tallyCons (r : VerificationResult)
    (rest : List VerificationResult × Nat × Nat × Nat × DB) :
    List VerificationResult × Nat × Nat × Nat × DB :=
  (r :: rest.1,
   (if r.verification_status = "confirmed_fraud" then 1 else 0) + rest.2.1,
   (if r.verification_status ≠ "confirmed_fraud" ∧
       r.verification_status = "not_fraud" then 1 else 0) + rest.2.2.1,
   (if r.verification_status ≠ "confirmed_fraud" ∧
       r.verification_status ≠ "not_fraud" then 1 else 0) + rest.2.2.2.1,
   rest.2.2.2.2)

/-- The loop body of verify_suspicious_matches: per-item results in input
order and the three counters, threading the database. -/
def verifyLoop (threshold : ℚ) (api : ApiClient) (now : Nat) :
    List String → DB → List VerificationResult × Nat × Nat × Nat × DB
  | [], db => ([], 0, 0, 0, db)
  | id :: ids, db =>
    tallyCons (verify_single_match threshold api now id db).1
      (verifyLoop threshold api now ids
        (verify_single_match threshold api now id db).2)

/-- VerificationService.verify_suspicious_matches. -/
def verify_suspicious_matches (threshold : ℚ) (api : ApiClient) (now : Nat)
    (match_ids : List String) (db : DB) : VerificationSummary × DB :=
  ({ total_verified := match_ids.length,
     confirmed_fraud_count := (verifyLoop threshold api now match_ids db).2.1,
     not_fraud_count := (verifyLoop threshold api now match_ids db).2.2.1,
     error_count := (verifyLoop threshold api now match_ids db).2.2.2.1,
     results := (verifyLoop threshold api now match_ids db).1,
     message := "Stage 2 complete: "
       ++ toString (verifyLoop threshold api now match_ids db).2.1
       ++ " confirmed fraud cases, "
       ++ toString (verifyLoop threshold api now match_ids db).2.2.1
       ++ " ruled out, "
       ++ toString (verifyLoop threshold api now match_ids db).2.2.2.1
       ++ " error(s)" },
   (verifyLoop threshold api now match_ids db).2.2.2.2)

/-- A concrete fraud-match row used to instantiate the theorems:
client name and verification status vary per use. -/
def sampleRow (client status : String) : FraudMatchRow :=
  { property_listing := { address := "12 Example Rd", client_name := client },
    ppd_full_address := "12 EXAMPLE ROAD", ppd_postcode := "SW1A 1AA",
    verification_status := status, land_registry_response := none,
    verified_owner_name := none, is_confirmed_fraud := false,
    verified_at := none }

/-! ## Partitioned transaction store: ingestion guard -/

/-- Modelled from the spec: an already-parsed transaction row handed to
`ingest` (the parsing service itself, src/services/ppd_service.py, is not
under src/); the four required fields are optional so that validation can
reject a row missing one. -/
structure IngestRow where
  postcode : Option String
  address : Option String
  price : Option String
  transfer_date : Option String
deriving DecidableEq

/-- Modelled from the spec: the IngestRecord guarding against
double-counting a re-submitted source (src/models/ppd_ingest_history.py
declares the persisted shape; the service writing and checking it is not
under src/). -/
structure IngestRecord where
  source_identity : String
  period_key : String
  record_count : Nat
deriving DecidableEq

/-- Modelled from the spec: the ingest history plus the period-partitioned
transaction store. -/
structure IngestState where
  history : List IngestRecord
  store : List (String × List IngestRow)
deriving DecidableEq

/-- Modelled from the spec: the summary `ingest` returns. -/
structure IngestSummary where
  successful : Nat
  failed : Nat
  errors : List String
deriving DecidableEq

/-- Modelled from the spec: a row is valid when the four required fields
(postcode, address, price, transfer_date) are present. -/
def validRow (r : IngestRow) : Bool :=
  r.postcode.isSome && r.address.isSome && r.price.isSome && r.transfer_date.isSome

/-- Modelled from the spec: the natural key used to de-duplicate rows
within a batch (address + date + price). -/
def rowKey (r : IngestRow) : Option String × Option String × Option String :=
  (r.address, r.transfer_date, r.price)

/-- Modelled from the spec: drop later rows sharing a natural key with an
earlier row of the batch. -/
def dedupRows : List IngestRow → List IngestRow
  | [] => []
  | r :: rs => r :: dedupRows (rs.filter fun x => rowKey x ≠ rowKey r)
termination_by l => l.length
decreasing_by
  exact Nat.lt_succ_of_le (List.length_filter_le _ _)

/-- Modelled from the spec: replace the partition of `k` wholesale with the
merged dataset. -/
def replacePartition (store : List (String × List IngestRow)) (k : String)
    (rows : List IngestRow) : List (String × List IngestRow) :=
  (store.filter fun p => p.1 ≠ k) ++ [(k, rows)]

/-- Modelled from the spec: `ingest(rows, period_key, force)` of the
partitioned transaction store (src/services/ppd_service.py is not under
src/).  It rejects the call up front as an idempotent no-op when the source
identity already has an IngestRecord and force is false; otherwise it
counts invalid rows without aborting, de-duplicates the valid rows and
replaces the partition, recording an IngestRecord. -/
def ingest (source_identity period_key : String) (rows : List IngestRow)
    (force : Bool) (st : IngestState) : IngestSummary × IngestState :=
  if (st.history.any fun h => h.source_identity == source_identity) && !force then
    ({ successful := 0, failed := 0, errors := [] }, st)
  else
    let valid := rows.filter validRow
    let invalid := rows.filter fun r => !validRow r
    let merged := dedupRows valid
    ({ successful := valid.length, failed := invalid.length,
       errors := invalid.map fun _ => "missing required field" },
     { history := st.history ++ [⟨source_identity, period_key, valid.length⟩],
       store := replacePartition st.store period_key merged })

/-! ## Canonical-form predicates for normalized strings -/

/-- No whitespace character other than the plain space occurs. -/
def wsAllSpace (s : List Char) : Bool :=
  s.all fun c => !isWsChar c || c == ' '

/-- No two adjacent whitespace characters occur. -/
def noDoubleWs : List Char → Bool
  | [] => true
  | [_] => true
  | c :: d :: rest => !(isWsChar c && isWsChar d) && noDoubleWs (d :: rest)

/-- No two adjacent space characters occur. -/
def noDoubleSpace : List Char → Bool
  | [] => true
  | [_] => true
  | c :: d :: rest => !(c == ' ' && d == ' ') && noDoubleSpace (d :: rest)

/-- None of the three punctuation characters stripped by normalize occurs. -/
def punctFree (s : List Char) : Bool :=
  s.all fun c => !(c = ',' || c = '.' || c = '-')

/-- Every character is fixed by uppercasing. -/
def upperStable (s : List Char) : Bool :=
  s.all fun c => c.toUpper == c

/-- The well-formedness conditions every substitution pair of the
abbreviation table satisfies. -/
abbrev goodSub (p : List Char × List Char) : Prop :=
  p.1 ≠ [] ∧ p.1.all isWordChar = true ∧ p.2 ≠ [] ∧ p.2.all isWordChar = true

/-! ## Character lemmas -/

theorem toNat_ofNat_valid (m : Nat) (hm : m < 0xd800) : (Char.ofNat m).toNat = m := by
  unfold Char.ofNat
  rw [dif_pos (Or.inl hm)]
  rfl

theorem toUpper_toUpper (c : Char) : c.toUpper.toUpper = c.toUpper := by
  simp only [Char.toUpper]
  by_cases h : c.toNat ≥ 97 ∧ c.toNat ≤ 122
  · rw [if_pos h, if_neg]
    rw [toNat_ofNat_valid (c.toNat - 32) (by omega)]
    omega
  · rw [if_neg h, if_neg h]

theorem ws_not_word {c : Char} (h : isWsChar c = true) : isWordChar c = false := by
  simp only [isWsChar, Bool.or_eq_true, decide_eq_true_eq] at h
  rcases h with ((((h | h) | h) | h) | h) | h <;> subst h <;> decide

theorem word_not_ws {c : Char} (h : isWordChar c = true) : isWsChar c = false := by
  by_contra hc
  rw [ws_not_word (by revert hc; cases isWsChar c <;> simp)] at h
  exact Bool.false_ne_true h

theorem char_eq_iff_toNat (a b : Char) : a = b ↔ a.toNat = b.toNat := by
  constructor
  · intro h; rw [h]
  · intro h
    exact Char.ext (UInt32.toNat.inj h)

theorem ws_toNat_le {c : Char} (h : isWsChar c = true) : c.toNat ≤ 32 := by
  simp only [isWsChar, Bool.or_eq_true, decide_eq_true_eq] at h
  rcases h with ((((h | h) | h) | h) | h) | h <;> subst h <;> decide

/-- Uppercasing either leaves a character alone or lands in the A..Z range. -/
theorem toUpper_cases (c : Char) :
    c.toUpper = c ∨ (65 ≤ c.toUpper.toNat ∧ c.toUpper.toNat ≤ 90) := by
  simp only [Char.toUpper]
  by_cases hc : c.toNat ≥ 97 ∧ c.toNat ≤ 122
  · right
    rw [if_pos hc, toNat_ofNat_valid (c.toNat - 32) (by omega)]
    omega
  · left
    rw [if_neg hc]

theorem toUpper_not_ws {c : Char} (h : isWsChar c = false) :
    isWsChar c.toUpper = false := by
  rcases toUpper_cases c with hu | hu
  · rw [hu]; exact h
  · by_contra hcon
    have hws : isWsChar c.toUpper = true := by
      revert hcon; cases isWsChar c.toUpper <;> simp
    have := ws_toNat_le hws
    omega

theorem toUpper_not_space {c : Char} (h : ¬(c = ' ')) : ¬(c.toUpper = ' ') := by
  rcases toUpper_cases c with hu | hu
  · rw [hu]; exact h
  · intro he
    have := (char_eq_iff_toNat c.toUpper ' ').mp he
    have h32 : (' ').toNat = 32 := by decide
    omega

/-! ## Whitespace collapsing and stripping -/

theorem wsAllSpace_cons {c : Char} {cs : List Char} :
    wsAllSpace (c :: cs) = true ↔
      (isWsChar c = false ∨ c = ' ') ∧ wsAllSpace cs = true := by
  simp [wsAllSpace]

theorem noDoubleWs_cons2 {c d : Char} {rest : List Char} :
    noDoubleWs (c :: d :: rest) = true ↔
      (isWsChar c = false ∨ isWsChar d = false) ∧ noDoubleWs (d :: rest) = true := by
  simp [noDoubleWs]

theorem collapse_cons_not_ws {c : Char} (h : isWsChar c = false) (cs : List Char) :
    collapseWs (c :: cs) = c :: collapseWs cs := by
  cases cs with
  | nil => simp [collapseWs, h]
  | cons d rest => simp [collapseWs, h]

theorem collapse_cons_ws_ws {c d : Char} (hc : isWsChar c = true)
    (hd : isWsChar d = true) (rest : List Char) :
    collapseWs (c :: d :: rest) = collapseWs (d :: rest) := by
  simp [collapseWs, hc, hd]

theorem collapse_cons_ws_notws {c d : Char} (hc : isWsChar c = true)
    (hd : isWsChar d = false) (rest : List Char) :
    collapseWs (c :: d :: rest) = ' ' :: collapseWs (d :: rest) := by
  simp [collapseWs, hc, hd]

theorem collapse_singleton_ws {c : Char} (hc : isWsChar c = true) :
    collapseWs [c] = [' '] := by
  simp [collapseWs, hc]

theorem collapse_ne_nil (c : Char) (cs : List Char) : collapseWs (c :: cs) ≠ [] := by
  induction cs generalizing c with
  | nil =>
    cases h : isWsChar c
    · rw [collapse_cons_not_ws h]; simp
    · rw [collapse_singleton_ws h]; simp
  | cons d rest ih =>
    cases hc : isWsChar c
    · rw [collapse_cons_not_ws hc]; simp
    · cases hd : isWsChar d
      · rw [collapse_cons_ws_notws hc hd]; simp
      · rw [collapse_cons_ws_ws hc hd]; exact ih d

theorem collapse_headD_ws (c : Char) (cs : List Char) :
    isWsChar ((collapseWs (c :: cs)).headD 'A') = isWsChar c := by
  induction cs generalizing c with
  | nil =>
    cases h : isWsChar c
    · rw [collapse_cons_not_ws h]; exact h
    · rw [collapse_singleton_ws h]; decide
  | cons d rest ih =>
    cases hc : isWsChar c
    · rw [collapse_cons_not_ws hc]; exact hc
    · cases hd : isWsChar d
      · rw [collapse_cons_ws_notws hc hd]
        exact (by decide : isWsChar ' ' = true)
      · rw [collapse_cons_ws_ws hc hd, ih d, hd]

theorem collapse_wsAllSpace (s : List Char) : wsAllSpace (collapseWs s) = true := by
  induction s with
  | nil => rfl
  | cons c cs ih =>
    cases cs with
    | nil =>
      cases h : isWsChar c
      · rw [collapse_cons_not_ws h]
        exact wsAllSpace_cons.mpr ⟨Or.inl h, rfl⟩
      · rw [collapse_singleton_ws h]; decide
    | cons d rest =>
      cases hc : isWsChar c
      · rw [collapse_cons_not_ws hc]
        exact wsAllSpace_cons.mpr ⟨Or.inl hc, ih⟩
      · cases hd : isWsChar d
        · rw [collapse_cons_ws_notws hc hd]
          exact wsAllSpace_cons.mpr ⟨Or.inr rfl, ih⟩
        · rw [collapse_cons_ws_ws hc hd]; exact ih

theorem collapse_noDoubleWs (s : List Char) : noDoubleWs (collapseWs s) = true := by
  induction s with
  | nil => rfl
  | cons c cs ih =>
    cases cs with
    | nil =>
      cases h : isWsChar c
      · rw [collapse_cons_not_ws h]; rfl
      · rw [collapse_singleton_ws h]; rfl
    | cons d rest =>
      cases hc : isWsChar c
      · rcases hL : collapseWs (d :: rest) with _ | ⟨y, L⟩
        · exact absurd hL (collapse_ne_nil d rest)
        · rw [collapse_cons_not_ws hc, hL]
          rw [hL] at ih
          exact noDoubleWs_cons2.mpr ⟨Or.inl hc, ih⟩
      · cases hd : isWsChar d
        · rcases hL : collapseWs (d :: rest) with _ | ⟨y, L⟩
          · exact absurd hL (collapse_ne_nil d rest)
          · rw [collapse_cons_ws_notws hc hd, hL]
            rw [hL] at ih
            have hy : isWsChar y = false := by
              have := collapse_headD_ws d rest
              rw [hL, hd] at this
              simpa using this
            exact noDoubleWs_cons2.mpr ⟨Or.inr hy, ih⟩
        · rw [collapse_cons_ws_ws hc hd]; exact ih

theorem collapse_eq_self {s : List Char} (h1 : wsAllSpace s = true)
    (h2 : noDoubleWs s = true) : collapseWs s = s := by
  induction s with
  | nil => rfl
  | cons c cs ih =>
    cases cs with
    | nil =>
      cases h : isWsChar c
      · rw [collapse_cons_not_ws h]; rfl
      · have hsp : c = ' ' := by
          rcases (wsAllSpace_cons.mp h1).1 with hh | hh
          · rw [h] at hh; cases hh
          · exact hh
        rw [collapse_singleton_ws h, hsp]
    | cons d rest =>
      have h2' := noDoubleWs_cons2.mp h2
      have h1' := (wsAllSpace_cons.mp h1).2
      cases hc : isWsChar c
      · rw [collapse_cons_not_ws hc, ih h1' h2'.2]
      · have hd : isWsChar d = false := by
          rcases h2'.1 with hh | hh
          · rw [hc] at hh; cases hh
          · exact hh
        have hsp : c = ' ' := by
          rcases (wsAllSpace_cons.mp h1).1 with hh | hh
          · rw [hc] at hh; cases hh
          · exact hh
        rw [collapse_cons_ws_notws hc hd, ih h1' h2'.2, hsp]

theorem collapse_all {P : Char → Bool} (hP : P ' ' = true) :
    ∀ {s : List Char}, s.all P = true → (collapseWs s).all P = true := by
  intro s
  induction s with
  | nil => intro _; exact rfl
  | cons c cs ih =>
    intro h
    have hc : P c = true := List.all_eq_true.mp h c (by simp)
    have hcs : cs.all P = true := by
      rw [List.all_eq_true]
      intro x hx
      exact List.all_eq_true.mp h x (by simp [hx])
    cases cs with
    | nil =>
      cases hws : isWsChar c
      · rw [collapse_cons_not_ws hws]
        simp [collapseWs, hc]
      · rw [collapse_singleton_ws hws]
        simp [hP]
    | cons d rest =>
      cases hws : isWsChar c
      · rw [collapse_cons_not_ws hws]
        simpa [hc] using ih hcs
      · cases hd : isWsChar d
        · rw [collapse_cons_ws_notws hws hd]
          simpa [hP] using ih hcs
        · rw [collapse_cons_ws_ws hws hd]; exact ih hcs


theorem lstrip_headD (s : List Char) : isWsChar ((lstrip s).headD 'A') = false := by
  induction s with
  | nil => decide
  | cons c cs ih =>
    cases h : isWsChar c
    · rw [lstrip, List.dropWhile_cons]
      simp only [h, Bool.false_eq_true, if_false]
      exact h
    · rw [lstrip, List.dropWhile_cons]
      simp only [h, if_true]
      exact ih

theorem lstrip_decomp (s : List Char) :
    s = s.takeWhile isWsChar ++ lstrip s :=
  (List.takeWhile_append_dropWhile isWsChar s).symm

theorem rstrip_decomp (s : List Char) :
    s = rstrip s ++ (s.reverse.takeWhile isWsChar).reverse := by
  have h := congrArg List.reverse (List.takeWhile_append_dropWhile isWsChar s.reverse)
  rw [List.reverse_append, List.reverse_reverse] at h
  exact h.symm

theorem headD_append_left {l t : List Char} (h : l ≠ []) (d : Char) :
    (l ++ t).headD d = l.headD d := by
  cases l with
  | nil => exact absurd rfl h
  | cons c cs => rfl

theorem rstrip_headD {s : List Char} (h : rstrip s ≠ []) :
    (rstrip s).headD 'A' = s.headD 'A' := by
  conv_rhs => rw [rstrip_decomp s]
  rw [headD_append_left h]

theorem rstrip_getLastD (s : List Char) :
    isWsChar ((rstrip s).getLastD 'A') = false := by
  rw [rstrip, List.getLastD_eq_getLast?, List.getLast?_reverse]
  have := lstrip_headD s.reverse
  rw [lstrip] at this
  rwa [List.headD_eq_head?_getD] at this

theorem strip_headD_ws (s : List Char) : isWsChar ((strip s).headD 'A') = false := by
  rw [strip]
  by_cases h : rstrip (lstrip s) = []
  · rw [h]; decide
  · rw [rstrip_headD h]; exact lstrip_headD s

theorem strip_getLastD_ws (s : List Char) :
    isWsChar ((strip s).getLastD 'A') = false :=
  rstrip_getLastD _

theorem lstrip_all {P : Char → Bool} {s : List Char} (h : s.all P = true) :
    (lstrip s).all P = true := by
  rw [lstrip_decomp s, List.all_append, Bool.and_eq_true] at h
  exact h.2

theorem rstrip_all {P : Char → Bool} {s : List Char} (h : s.all P = true) :
    (rstrip s).all P = true := by
  rw [rstrip_decomp s, List.all_append, Bool.and_eq_true] at h
  exact h.1

theorem strip_all {P : Char → Bool} {s : List Char} (h : s.all P = true) :
    (strip s).all P = true :=
  rstrip_all (lstrip_all h)

theorem noDoubleWs_tail {c : Char} {l : List Char}
    (h : noDoubleWs (c :: l) = true) : noDoubleWs l = true := by
  cases l with
  | nil => rfl
  | cons d r => exact (noDoubleWs_cons2.mp h).2

theorem noDoubleWs_append_right :
    ∀ {a b : List Char}, noDoubleWs (a ++ b) = true → noDoubleWs b = true := by
  intro a
  induction a with
  | nil => intro b h; exact h
  | cons c a' ih => intro b h; exact ih (noDoubleWs_tail h)

theorem noDoubleWs_append_left :
    ∀ {a b : List Char}, noDoubleWs (a ++ b) = true → noDoubleWs a = true := by
  intro a
  induction a with
  | nil => intro b _; rfl
  | cons c a' ih =>
    intro b h
    cases a' with
    | nil => rfl
    | cons d r =>
      have h' := noDoubleWs_cons2.mp h
      exact noDoubleWs_cons2.mpr ⟨h'.1, ih h'.2⟩

theorem strip_noDoubleWs {s : List Char} (h : noDoubleWs s = true) :
    noDoubleWs (strip s) = true := by
  have h1 : noDoubleWs (lstrip s) = true := by
    rw [lstrip_decomp s] at h
    exact noDoubleWs_append_right h
  rw [strip]
  rw [rstrip_decomp (lstrip s)] at h1
  exact noDoubleWs_append_left h1

theorem lstrip_eq_self {s : List Char} (h : isWsChar (s.headD 'A') = false) :
    lstrip s = s := by
  cases s with
  | nil => rfl
  | cons c cs =>
    rw [lstrip, List.dropWhile_cons]
    have : isWsChar c = false := h
    simp [this]

theorem rstrip_eq_self {s : List Char} (h : isWsChar (s.getLastD 'A') = false) :
    rstrip s = s := by
  rw [rstrip]
  have hh : isWsChar (s.reverse.headD 'A') = false := by
    rw [List.headD_eq_head?_getD, List.head?_reverse]
    rwa [List.getLastD_eq_getLast?] at h
  have := lstrip_eq_self hh
  rw [lstrip] at this
  rw [this, List.reverse_reverse]

theorem strip_eq_self {s : List Char} (h1 : isWsChar (s.headD 'A') = false)
    (h2 : isWsChar (s.getLastD 'A') = false) : strip s = s := by
  rw [strip, lstrip_eq_self h1, rstrip_eq_self h2]


/-! ## Word-boundary substitution machinery -/

theorem headD_irrel {l : List Char} (h : l ≠ []) (d e : Char) :
    l.headD d = l.headD e := by
  cases l with
  | nil => exact absurd rfl h
  | cons c cs => rfl

theorem headMatch_cons (a c : Char) (A s : List Char) :
    headMatch (a :: A) (c :: s) = ((a == c) && headMatch A s) := by
  simp only [headMatch, List.isPrefixOf, boundaryAfter, List.length_cons,
    List.drop_succ_cons, Bool.and_assoc]

theorem headMatch_nil (s : List Char) :
    headMatch [] s = !isWordChar (s.headD ' ') := by
  cases s with
  | nil => decide
  | cons c cs => simp [headMatch, boundaryAfter, List.isPrefixOf]

theorem headMatch_pat_head {p c : Char} {P s : List Char}
    (h : headMatch (p :: P) (c :: s) = true) : p = c := by
  rw [headMatch_cons, Bool.and_eq_true] at h
  exact eq_of_beq h.1

theorem boundaryAfter_eq (pat s : List Char) :
    boundaryAfter pat s = !isWordChar ((s.drop pat.length).headD ' ') := by
  rw [boundaryAfter]
  cases s.drop pat.length with
  | nil => decide
  | cons d t => rfl

theorem isPrefixOf_eq_append {u : List Char} :
    ∀ {v : List Char}, u.isPrefixOf v = true → v = u ++ v.drop u.length := by
  induction u with
  | nil => intro v _; simp
  | cons a u' ih =>
    intro v h
    cases v with
    | nil => cases h
    | cons c v' =>
      rw [List.isPrefixOf, Bool.and_eq_true] at h
      have ha : a = c := eq_of_beq h.1
      rw [List.length_cons, List.drop_succ_cons, ha]
      exact congrArg (c :: ·) (ih h.2)

theorem getLastD_word {A : List Char} (hA : A ≠ [])
    (hw : A.all isWordChar = true) : isWordChar (A.getLastD 'A') = true := by
  induction A with
  | nil => exact absurd rfl hA
  | cons a A ih =>
    cases A with
    | nil => exact List.all_eq_true.mp hw a (by simp)
    | cons b B =>
      have : (b :: B).getLastD 'A' = (a :: b :: B).getLastD 'A' := rfl
      rw [← this]
      exact ih (by simp) (by
        rw [List.all_eq_true] at hw ⊢
        intro x hx
        exact hw x (by simp at hx ⊢; tauto))

theorem subWordAux_skip (pat repl : List Char) (prev : Bool) :
    ∀ (s : List Char) (k : Nat),
      subWordAux pat repl prev k s = subWordAux pat repl prev 0 (s.drop k) := by
  intro s
  induction s with
  | nil => intro k; cases k <;> rfl
  | cons c cs ih =>
    intro k
    cases k with
    | zero => rfl
    | succ k =>
      rw [show subWordAux pat repl prev (Nat.succ k) (c :: cs)
            = subWordAux pat repl prev k cs from rfl]
      rw [ih k, List.drop_succ_cons]

theorem hasMatchAux_word_append {A : List Char} :
    ∀ {u : List Char}, u.all isWordChar = true →
      ∀ (v : List Char), hasMatchAux A true (u ++ v) = hasMatchAux A true v := by
  intro u
  induction u with
  | nil => intro _ v; rfl
  | cons c u' ih =>
    intro hu v
    have hc : isWordChar c = true := List.all_eq_true.mp hu c (by simp)
    have hu' : u'.all isWordChar = true := by
      rw [List.all_eq_true]
      intro x hx
      exact List.all_eq_true.mp hu x (by simp [hx])
    rw [show (c :: u') ++ v = c :: (u' ++ v) from rfl]
    rw [show hasMatchAux A true (c :: (u' ++ v))
          = ((!true && headMatch A (c :: (u' ++ v))) ||
             hasMatchAux A (isWordChar c) (u' ++ v)) from rfl]
    rw [hc]
    simpa using ih hu' v

theorem hasMatchAux_after_block {A u v : List Char} {prev : Bool}
    (hu : u ≠ []) (huw : u.all isWordChar = true)
    (h : hasMatchAux A prev (u ++ v) = false) : hasMatchAux A true v = false := by
  cases u with
  | nil => exact absurd rfl hu
  | cons c u' =>
    have hc : isWordChar c = true := List.all_eq_true.mp huw c (by simp)
    have hu' : u'.all isWordChar = true := by
      rw [List.all_eq_true]
      intro x hx
      exact List.all_eq_true.mp huw x (by simp [hx])
    rw [show (c :: u') ++ v = c :: (u' ++ v) from rfl] at h
    rw [show hasMatchAux A prev (c :: (u' ++ v))
          = ((!prev && headMatch A (c :: (u' ++ v))) ||
             hasMatchAux A (isWordChar c) (u' ++ v)) from rfl] at h
    rw [hc, Bool.or_eq_false_iff] at h
    rw [← hasMatchAux_word_append hu' v]
    exact h.2

theorem headMatch_word_block {A T rest : List Char}
    (hAw : A.all isWordChar = true) (hTw : T.all isWordChar = true)
    (hAT : A ≠ T) (hrest : isWordChar (rest.headD ' ') = false) :
    headMatch A (T ++ rest) = false := by
  induction T generalizing A with
  | nil =>
    cases A with
    | nil => exact absurd rfl hAT
    | cons a A' =>
      cases rest with
      | nil => rfl
      | cons d t =>
        have ha : isWordChar a = true := List.all_eq_true.mp hAw a (by simp)
        rw [List.nil_append, headMatch_cons]
        have hrest' : isWordChar d = false := hrest
        have had : (a == d) = false := by
          by_contra hcon
          have hx : a = d := eq_of_beq (by revert hcon; cases a == d <;> simp)
          rw [hx] at ha
          rw [ha] at hrest'
          cases hrest'
        rw [had, Bool.false_and]
  | cons t T' ih =>
    cases A with
    | nil =>
      rw [headMatch_nil]
      have ht : isWordChar t = true := List.all_eq_true.mp hTw t (by simp)
      rw [show ((t :: T') ++ rest).headD ' ' = t from rfl, ht]
      rfl
    | cons a A' =>
      rw [show (t :: T') ++ rest = t :: (T' ++ rest) from rfl, headMatch_cons]
      by_cases hat : (a == t) = true
      · have haA : A'.all isWordChar = true := by
          rw [List.all_eq_true]
          intro x hx
          exact List.all_eq_true.mp hAw x (by simp [hx])
        have hTA : T'.all isWordChar = true := by
          rw [List.all_eq_true]
          intro x hx
          exact List.all_eq_true.mp hTw x (by simp [hx])
        have hne : A' ≠ T' := by
          intro hcon
          exact hAT (by rw [eq_of_beq hat, hcon])
        rw [ih haA hTA hne]
        simp
      · rw [show (a == t) = false by revert hat; cases a == t <;> simp]
        rfl


theorem subWordAux_cons_pos {pat repl : List Char} {prev : Bool} {c : Char}
    {cs : List Char} (h : (!prev && headMatch pat (c :: cs)) = true) :
    subWordAux pat repl prev 0 (c :: cs)
      = repl ++ subWordAux pat repl (isWordChar (pat.getLastD 'A'))
          (pat.length - 1) cs := by
  simp [subWordAux, h]

theorem subWordAux_cons_neg {pat repl : List Char} {prev : Bool} {c : Char}
    {cs : List Char} (h : ¬((!prev && headMatch pat (c :: cs)) = true)) :
    subWordAux pat repl prev 0 (c :: cs)
      = c :: subWordAux pat repl (isWordChar c) 0 cs := by
  simp [subWordAux, h]

theorem subWordAux_replace {pat repl : List Char} (hp : pat ≠ [])
    (hpw : pat.all isWordChar = true) {prev : Bool} {c : Char} {cs : List Char}
    (h : (!prev && headMatch pat (c :: cs)) = true) :
    subWordAux pat repl prev 0 (c :: cs)
      = repl ++ subWordAux pat repl true 0 (cs.drop (pat.length - 1)) := by
  rw [subWordAux_cons_pos h, getLastD_word hp hpw, subWordAux_skip]

theorem subWordAux_cons_true {B T : List Char} (c : Char) (cs : List Char) :
    subWordAux B T true 0 (c :: cs) = c :: subWordAux B T (isWordChar c) 0 cs := by
  apply subWordAux_cons_neg
  simp

theorem all_tail {P : Char → Bool} {c : Char} {l : List Char}
    (h : (c :: l).all P = true) : l.all P = true := by
  rw [List.all_eq_true] at h ⊢
  intro x hx
  exact h x (by simp [hx])

theorem all_head {P : Char → Bool} {c : Char} {l : List Char}
    (h : (c :: l).all P = true) : P c = true :=
  List.all_eq_true.mp h c (by simp)

theorem subWordAux_headD_word {B T : List Char} (hB : B ≠ [])
    (hBw : B.all isWordChar = true) (hT : T ≠ []) (hTw : T.all isWordChar = true)
    (p : Bool) (s : List Char) :
    isWordChar ((subWordAux B T p 0 s).headD ' ') = isWordChar (s.headD ' ') := by
  cases s with
  | nil => rfl
  | cons c cs =>
    by_cases hc : (!p && headMatch B (c :: cs)) = true
    · rw [subWordAux_cons_pos hc]
      cases T with
      | nil => exact absurd rfl hT
      | cons t T' =>
        cases B with
        | nil => exact absurd rfl hB
        | cons b B' =>
          have hbc : b = c :=
            headMatch_pat_head ((Bool.and_eq_true _ _).mp hc).2
          have hb : isWordChar b = true := all_head hBw
          have ht : isWordChar t = true := all_head hTw
          rw [show ((t :: T') ++ subWordAux (b :: B') (t :: T')
                (isWordChar ((b :: B').getLastD 'A'))
                ((b :: B').length - 1) cs).headD ' ' = t from rfl, ht]
          rw [show ((c :: cs).headD ' ') = c from rfl, ← hbc, hb]
    · rw [subWordAux_cons_neg hc]
      rfl

theorem subWordAux_nil_iff {B T : List Char} (hT : T ≠ []) (p : Bool)
    (s : List Char) : subWordAux B T p 0 s = [] ↔ s = [] := by
  cases s with
  | nil => simp [subWordAux]
  | cons c cs =>
    constructor
    · intro h
      by_cases hc : (!p && headMatch B (c :: cs)) = true
      · rw [subWordAux_cons_pos hc] at h
        cases T with
        | nil => exact absurd rfl hT
        | cons t T' => cases h
      · rw [subWordAux_cons_neg hc] at h
        cases h
    · intro h
      cases h

theorem headMatch_transfer {B T : List Char} :
    ∀ (s A' : List Char), A'.all isWordChar = true →
      headMatch A' (subWordAux B T true 0 s) = true → headMatch A' s = true := by
  intro s
  induction s with
  | nil =>
    intro A' _ h
    exact h
  | cons c cs ih =>
    intro A' hA'w h
    rw [subWordAux_cons_true c cs] at h
    cases A' with
    | nil =>
      rw [headMatch_nil] at h ⊢
      exact h
    | cons a A'' =>
      rw [headMatch_cons, Bool.and_eq_true] at h ⊢
      have hac : a = c := eq_of_beq h.1
      have hc2 : isWordChar c = true := by
        rw [← hac]
        exact all_head hA'w
      rw [hc2] at h
      exact ⟨h.1, ih A'' (all_tail hA'w) h.2⟩

theorem hasMatchAux_replaced_block {A T rest : List Char} {prev : Bool}
    (hAw : A.all isWordChar = true) (hT : T ≠ [])
    (hTw : T.all isWordChar = true) (hAT : A ≠ T)
    (hrest : isWordChar (rest.headD ' ') = false)
    (hm : hasMatchAux A true rest = false) :
    hasMatchAux A prev (T ++ rest) = false := by
  cases T with
  | nil => exact absurd rfl hT
  | cons t T' =>
    have ht : isWordChar t = true := all_head hTw
    rw [show (t :: T') ++ rest = t :: (T' ++ rest) from rfl]
    rw [show hasMatchAux A prev (t :: (T' ++ rest))
          = ((!prev && headMatch A (t :: (T' ++ rest))) ||
             hasMatchAux A (isWordChar t) (T' ++ rest)) from rfl]
    rw [ht, hasMatchAux_word_append (all_tail hTw) rest, hm]
    rw [show t :: (T' ++ rest) = (t :: T') ++ rest from rfl]
    rw [headMatch_word_block hAw hTw hAT hrest]
    simp


theorem drop_length_cons {B : List Char} (hB : B ≠ []) (c : Char) (cs : List Char) :
    (c :: cs).drop B.length = cs.drop (B.length - 1) := by
  cases B with
  | nil => exact absurd rfl hB
  | cons b B' => rw [List.length_cons, Nat.succ_sub_one, List.drop_succ_cons]

theorem subWord_no_match_n {A B T : List Char}
    (hA : A ≠ []) (hAw : A.all isWordChar = true)
    (hB : B ≠ []) (hBw : B.all isWordChar = true)
    (hT : T ≠ []) (hTw : T.all isWordChar = true) (hAT : A ≠ T) :
    ∀ (n : Nat) (s : List Char), s.length ≤ n → ∀ (prev : Bool),
      (A = B ∨ hasMatchAux A prev s = false) →
      hasMatchAux A prev (subWordAux B T prev 0 s) = false := by
  intro n
  induction n with
  | zero =>
    intro s hs prev _
    have hnil : s = [] := List.length_eq_zero.mp (Nat.le_zero.mp hs)
    rw [hnil]
    rfl
  | succ n ih =>
    intro s hs prev h
    cases s with
    | nil => rfl
    | cons c cs =>
      have hlcs : cs.length ≤ n := by
        rw [List.length_cons] at hs
        omega
      by_cases hcond : (!prev && headMatch B (c :: cs)) = true
      · have hprev : prev = false := by
          have := ((Bool.and_eq_true _ _).mp hcond).1
          revert this
          cases prev <;> simp
        have hhm : headMatch B (c :: cs) = true := ((Bool.and_eq_true _ _).mp hcond).2
        have hpre : B.isPrefixOf (c :: cs) = true := ((Bool.and_eq_true _ _).mp hhm).1
        have hbd : boundaryAfter B (c :: cs) = true := ((Bool.and_eq_true _ _).mp hhm).2
        have hdec : c :: cs = B ++ (c :: cs).drop B.length := isPrefixOf_eq_append hpre
        have hdrop : (c :: cs).drop B.length = cs.drop (B.length - 1) :=
          drop_length_cons hB c cs
        have hrw : isWordChar (((c :: cs).drop B.length).headD ' ') = false := by
          rw [boundaryAfter_eq] at hbd
          revert hbd
          cases hx : isWordChar (((c :: cs).drop B.length).headD ' ') <;> simp
        rw [subWordAux_replace hB hBw hcond]
        have hlen : (cs.drop (B.length - 1)).length ≤ n := by
          rw [List.length_drop]
          omega
        have hdisj : A = B ∨ hasMatchAux A true (cs.drop (B.length - 1)) = false := by
          rcases h with hAB | hm
          · exact Or.inl hAB
          · right
            rw [hprev, hdec, hdrop] at hm
            exact hasMatchAux_after_block hB hBw hm
        have hnomatch : hasMatchAux A true
            (subWordAux B T true 0 (cs.drop (B.length - 1))) = false :=
          ih (cs.drop (B.length - 1)) hlen true hdisj
        have hh : isWordChar ((subWordAux B T true 0
            (cs.drop (B.length - 1))).headD ' ') = false := by
          rw [subWordAux_headD_word hB hBw hT hTw, ← hdrop]
          exact hrw
        exact hasMatchAux_replaced_block hAw hT hTw hAT hh hnomatch
      · rw [subWordAux_cons_neg hcond]
        rw [show hasMatchAux A prev (c :: subWordAux B T (isWordChar c) 0 cs)
              = ((!prev && headMatch A (c :: subWordAux B T (isWordChar c) 0 cs)) ||
                 hasMatchAux A (isWordChar c) (subWordAux B T (isWordChar c) 0 cs))
            from rfl]
        have hsec : hasMatchAux A (isWordChar c)
            (subWordAux B T (isWordChar c) 0 cs) = false := by
          apply ih cs hlcs (isWordChar c)
          rcases h with hAB | hm
          · exact Or.inl hAB
          · right
            rw [show hasMatchAux A prev (c :: cs)
                  = ((!prev && headMatch A (c :: cs)) ||
                     hasMatchAux A (isWordChar c) cs) from rfl,
                Bool.or_eq_false_iff] at hm
            exact hm.2
        rw [hsec]
        cases hprev : prev with
        | true => simp
        | false =>
          simp only [Bool.not_false, Bool.true_and, Bool.or_false]
          by_contra hcon
          have hhm2 : headMatch A (c :: subWordAux B T (isWordChar c) 0 cs) = true := by
            revert hcon
            cases headMatch A (c :: subWordAux B T (isWordChar c) 0 cs) <;> simp
          cases A with
          | nil => exact absurd rfl hA
          | cons a A'' =>
            rw [headMatch_cons, Bool.and_eq_true] at hhm2
            have hac : a = c := eq_of_beq hhm2.1
            have hcw : isWordChar c = true := by
              rw [← hac]
              exact all_head hAw
            rw [hcw] at hhm2
            have htr : headMatch A'' cs = true :=
              headMatch_transfer cs A'' (all_tail hAw) hhm2.2
            have hfull : headMatch (a :: A'') (c :: cs) = true := by
              rw [headMatch_cons, Bool.and_eq_true]
              exact ⟨hhm2.1, htr⟩
            rcases h with hAB | hm
            · rw [hprev] at hcond
              have hBf : headMatch B (c :: cs) = false := by
                revert hcond
                cases hx : headMatch B (c :: cs) <;> simp
              rw [← hAB] at hBf
              rw [hfull] at hBf
              cases hBf
            · rw [hprev] at hm
              rw [show hasMatchAux (a :: A'') false (c :: cs)
                    = ((!false && headMatch (a :: A'') (c :: cs)) ||
                       hasMatchAux (a :: A'') (isWordChar c) cs) from rfl,
                  Bool.or_eq_false_iff] at hm
              have hmf := hm.1
              simp only [Bool.not_false, Bool.true_and] at hmf
              rw [hfull] at hmf
              cases hmf

theorem subWord_no_match {A B T : List Char}
    (hA : A ≠ []) (hAw : A.all isWordChar = true)
    (hB : B ≠ []) (hBw : B.all isWordChar = true)
    (hT : T ≠ []) (hTw : T.all isWordChar = true) (hAT : A ≠ T)
    (s : List Char) (prev : Bool)
    (h : A = B ∨ hasMatchAux A prev s = false) :
    hasMatchAux A prev (subWordAux B T prev 0 s) = false :=
  subWord_no_match_n hA hAw hB hBw hT hTw hAT s.length s (le_refl _) prev h

theorem subWord_id_of_no_match {A T : List Char} :
    ∀ (s : List Char) (prev : Bool), hasMatchAux A prev s = false →
      subWordAux A T prev 0 s = s := by
  intro s
  induction s with
  | nil => intro prev _; rfl
  | cons c cs ih =>
    intro prev h
    rw [show hasMatchAux A prev (c :: cs)
          = ((!prev && headMatch A (c :: cs)) || hasMatchAux A (isWordChar c) cs)
        from rfl, Bool.or_eq_false_iff] at h
    rw [subWordAux_cons_neg (by rw [h.1]; simp)]
    rw [ih (isWordChar c) h.2]


theorem hasMatchAux_cons_nonword {A : List Char} (hA : A ≠ [])
    (hAw : A.all isWordChar = true) {x : Char} (hx : isWordChar x = false)
    (xs : List Char) (prev : Bool) :
    hasMatchAux A prev (x :: xs) = hasMatchAux A false xs := by
  cases A with
  | nil => exact absurd rfl hA
  | cons a A' =>
    have hax : (a == x) = false := by
      by_contra hcon
      have : a = x := eq_of_beq (by revert hcon; cases a == x <;> simp)
      have ha := all_head hAw
      rw [this, hx] at ha
      cases ha
    rw [show hasMatchAux (a :: A') prev (x :: xs)
          = ((!prev && headMatch (a :: A') (x :: xs)) ||
             hasMatchAux (a :: A') (isWordChar x) xs) from rfl]
    rw [headMatch_cons, hax, hx]
    simp

theorem hasMatchAux_all_nonword {A : List Char} (hA : A ≠ [])
    (hAw : A.all isWordChar = true) :
    ∀ {v : List Char} (prev : Bool), (∀ c ∈ v, isWordChar c = false) →
      hasMatchAux A prev v = false := by
  intro v
  induction v with
  | nil => intro _ _; rfl
  | cons c v' ih =>
    intro prev hv
    rw [hasMatchAux_cons_nonword hA hAw (hv c (by simp)) v' prev]
    exact ih false fun x hx => hv x (by simp [hx])

theorem hasMatchAux_nonword_prefix {A : List Char} (hA : A ≠ [])
    (hAw : A.all isWordChar = true) :
    ∀ {u v : List Char}, (∀ c ∈ u, isWordChar c = false) →
      hasMatchAux A false (u ++ v) = hasMatchAux A false v := by
  intro u
  induction u with
  | nil => intro v _; rfl
  | cons c u' ih =>
    intro v hu
    rw [show (c :: u') ++ v = c :: (u' ++ v) from rfl]
    rw [hasMatchAux_cons_nonword hA hAw (hu c (by simp)) _ false]
    exact ih fun x hx => hu x (by simp [hx])

theorem headMatch_nonword_suffix {A : List Char} (hAw : A.all isWordChar = true) :
    ∀ {u v : List Char}, (∀ c ∈ v, isWordChar c = false) →
      headMatch A (u ++ v) = headMatch A u := by
  induction A with
  | nil =>
    intro u v hv
    rw [headMatch_nil, headMatch_nil]
    cases u with
    | nil =>
      rw [List.nil_append]
      cases v with
      | nil => rfl
      | cons d t =>
        rw [show ((d :: t).headD ' ') = d from rfl, hv d (by simp)]
        rfl
    | cons c u' => rfl
  | cons a A' ih =>
    intro u v hv
    cases u with
    | nil =>
      rw [List.nil_append]
      cases v with
      | nil => rfl
      | cons d t =>
        rw [show headMatch (a :: A') [] = false by rfl]
        rw [headMatch_cons]
        have : (a == d) = false := by
          by_contra hcon
          have hx : a = d := eq_of_beq (by revert hcon; cases a == d <;> simp)
          have ha := all_head hAw
          rw [hx, hv d (by simp)] at ha
          cases ha
        rw [this, Bool.false_and]
    | cons c u' =>
      rw [show (c :: u') ++ v = c :: (u' ++ v) from rfl,
        headMatch_cons, headMatch_cons, ih (all_tail hAw) hv]

theorem hasMatchAux_nonword_suffix {A : List Char} (hA : A ≠ [])
    (hAw : A.all isWordChar = true) :
    ∀ {u v : List Char} (prev : Bool), (∀ c ∈ v, isWordChar c = false) →
      hasMatchAux A prev (u ++ v) = hasMatchAux A prev u := by
  intro u
  induction u with
  | nil =>
    intro v prev hv
    rw [List.nil_append]
    exact hasMatchAux_all_nonword hA hAw prev hv
  | cons c u' ih =>
    intro v prev hv
    rw [show (c :: u') ++ v = c :: (u' ++ v) from rfl]
    rw [show hasMatchAux A prev (c :: (u' ++ v))
          = ((!prev && headMatch A (c :: (u' ++ v))) ||
             hasMatchAux A (isWordChar c) (u' ++ v)) from rfl]
    rw [show hasMatchAux A prev (c :: u')
          = ((!prev && headMatch A (c :: u')) ||
             hasMatchAux A (isWordChar c) u') from rfl]
    rw [show c :: (u' ++ v) = (c :: u') ++ v from rfl]
    rw [headMatch_nonword_suffix hAw hv, ih (isWordChar c) hv]

theorem headMatch_collapse {A : List Char} (hAw : A.all isWordChar = true) :
    ∀ {s : List Char}, headMatch A (collapseWs s) = true → headMatch A s = true := by
  induction A with
  | nil =>
    intro s h
    rw [headMatch_nil] at h ⊢
    cases s with
    | nil => rfl
    | cons c cs =>
      cases hc : isWsChar c
      · rw [collapse_cons_not_ws hc] at h
        exact h
      · rw [show ((c :: cs).headD ' ') = c from rfl, ws_not_word hc]
        rfl
  | cons a A' ih =>
    intro s h
    have ha : isWordChar a = true := all_head hAw
    cases s with
    | nil => cases h
    | cons c cs =>
      cases hc : isWsChar c
      · rw [collapse_cons_not_ws hc] at h
        rw [headMatch_cons] at h ⊢
        rw [Bool.and_eq_true] at h ⊢
        exact ⟨h.1, ih (all_tail hAw) h.2⟩
      · exfalso
        rcases hL : collapseWs (c :: cs) with _ | ⟨y, L⟩
        · exact collapse_ne_nil c cs hL
        · rw [hL] at h
          have hy : isWsChar y = true := by
            have := collapse_headD_ws c cs
            rw [hL, hc] at this
            exact this
          have hay : a = y := headMatch_pat_head h
          rw [← hay] at hy
          rw [ws_not_word hy] at ha
          cases ha

theorem hasMatch_collapse {A : List Char} (hA : A ≠ [])
    (hAw : A.all isWordChar = true) :
    ∀ {s : List Char} (prev : Bool), hasMatchAux A prev s = false →
      hasMatchAux A prev (collapseWs s) = false := by
  intro s
  induction s with
  | nil => intro prev _; exact rfl
  | cons c cs ih =>
    intro prev h
    cases cs with
    | nil =>
      cases hc : isWsChar c
      · rw [collapse_cons_not_ws hc]
        exact h
      · rw [collapse_singleton_ws hc]
        exact hasMatchAux_all_nonword hA hAw prev (by
          intro x hx
          simp at hx
          rw [hx]
          decide)
    | cons d rest =>
      cases hc : isWsChar c
      · rw [collapse_cons_not_ws hc]
        rw [show hasMatchAux A prev (c :: collapseWs (d :: rest))
              = ((!prev && headMatch A (c :: collapseWs (d :: rest))) ||
                 hasMatchAux A (isWordChar c) (collapseWs (d :: rest))) from rfl]
        rw [show hasMatchAux A prev (c :: d :: rest)
              = ((!prev && headMatch A (c :: d :: rest)) ||
                 hasMatchAux A (isWordChar c) (d :: rest)) from rfl,
            Bool.or_eq_false_iff] at h
        rw [ih (isWordChar c) h.2]
        have hfst : (!prev && headMatch A (c :: collapseWs (d :: rest))) = false := by
          cases hp : (!prev)
          · rfl
          · rw [Bool.true_and]
            by_contra hcon
            have hhm : headMatch A (c :: collapseWs (d :: rest)) = true := by
              revert hcon
              cases headMatch A (c :: collapseWs (d :: rest)) <;> simp
            have : headMatch A (collapseWs (c :: d :: rest)) = true := by
              rw [collapse_cons_not_ws hc]
              exact hhm
            have h2 := headMatch_collapse hAw this
            rw [hp, Bool.true_and] at h
            rw [h2] at h
            cases h.1
        rw [hfst]
        simp
      · have hcw : isWordChar c = false := ws_not_word hc
        rw [hasMatchAux_cons_nonword hA hAw hcw (d :: rest) prev] at h
        cases hd : isWsChar d
        · rw [collapse_cons_ws_notws hc hd]
          rw [hasMatchAux_cons_nonword hA hAw (by decide) (collapseWs (d :: rest)) prev]
          exact ih false h
        · rw [collapse_cons_ws_ws hc hd]
          apply ih prev
          have hdw : isWordChar d = false := ws_not_word hd
          rw [hasMatchAux_cons_nonword hA hAw hdw rest prev]
          rw [hasMatchAux_cons_nonword hA hAw hdw rest false] at h
          exact h


theorem hasMatch_strip {A : List Char} (hA : A ≠ [])
    (hAw : A.all isWordChar = true) {s : List Char}
    (h : hasMatchAux A false s = false) :
    hasMatchAux A false (strip s) = false := by
  have h1 : hasMatchAux A false (lstrip s) = false := by
    have hd := lstrip_decomp s
    rw [hd, hasMatchAux_nonword_prefix hA hAw
      (fun c hc => ws_not_word (List.mem_takeWhile_imp hc))] at h
    exact h
  rw [strip]
  have hd2 := rstrip_decomp (lstrip s)
  rw [hd2, hasMatchAux_nonword_suffix hA hAw false
    (fun c hc => ws_not_word (List.mem_takeWhile_imp (List.mem_reverse.mp hc)))] at h1
  exact h1

theorem foldKeep {A : List Char} (hA : A ≠ []) (hAw : A.all isWordChar = true) :
    ∀ (l : List (List Char × List Char)) (s : List Char),
      (∀ p ∈ l, goodSub p ∧ A ≠ p.2) →
      hasMatchAux A false s = false →
      hasMatchAux A false (l.foldl (fun acc p => subWord p.1 p.2 acc) s) = false := by
  intro l
  induction l with
  | nil => intro s _ h; exact h
  | cons q l' ih =>
    intro s hl h
    rw [List.foldl_cons]
    apply ih _ (fun p hp => hl p (by simp [hp]))
    obtain ⟨⟨hq1, hq2, hq3, hq4⟩, hq5⟩ := hl q (by simp)
    exact subWord_no_match hA hAw hq1 hq2 hq3 hq4 hq5 s false (Or.inr h)

theorem foldHit {A T0 : List Char} (hA : A ≠ []) (hAw : A.all isWordChar = true) :
    ∀ (l : List (List Char × List Char)) (s : List Char),
      (A, T0) ∈ l →
      (∀ p ∈ l, goodSub p ∧ A ≠ p.2) →
      hasMatchAux A false (l.foldl (fun acc p => subWord p.1 p.2 acc) s) = false := by
  intro l
  induction l with
  | nil => intro s hmem _; cases hmem
  | cons q l' ih =>
    intro s hmem hl
    rw [List.foldl_cons]
    rcases List.mem_cons.mp hmem with heq | hmem'
    · obtain ⟨⟨hq1, hq2, hq3, hq4⟩, hq5⟩ := hl q (by simp)
      have hAB : A = q.1 := by rw [← heq]
      have h0 : hasMatchAux A false (subWord q.1 q.2 s) = false :=
        subWord_no_match hA hAw hq1 hq2 hq3 hq4 hq5 s false (Or.inl hAB)
      exact foldKeep hA hAw l' _ (fun p hp => hl p (by simp [hp])) h0
    · exact ih _ hmem' (fun p hp => hl p (by simp [hp]))

theorem foldl_sub_id :
    ∀ (l : List (List Char × List Char)) (s : List Char),
      (∀ p ∈ l, hasMatchAux p.1 false s = false) →
      l.foldl (fun acc p => subWord p.1 p.2 acc) s = s := by
  intro l
  induction l with
  | nil => intro s _; rfl
  | cons q l' ih =>
    intro s h
    rw [List.foldl_cons]
    rw [show subWord q.1 q.2 s = s from
      subWord_id_of_no_match s false (h q (by simp))]
    exact ih s fun p hp => h p (by simp [hp])

theorem subWordAux_all {P : Char → Bool} {pat repl : List Char}
    (hrepl : repl.all P = true) :
    ∀ (s : List Char) (prev : Bool) (k : Nat), s.all P = true →
      (subWordAux pat repl prev k s).all P = true := by
  intro s
  induction s with
  | nil => intro prev k _; cases k <;> rfl
  | cons c cs ih =>
    intro prev k h
    cases k with
    | succ k =>
      rw [show subWordAux pat repl prev (Nat.succ k) (c :: cs)
            = subWordAux pat repl prev k cs from rfl]
      exact ih prev k (all_tail h)
    | zero =>
      by_cases hc : (!prev && headMatch pat (c :: cs)) = true
      · rw [subWordAux_cons_pos hc, List.all_append, Bool.and_eq_true]
        exact ⟨hrepl, ih _ _ (all_tail h)⟩
      · rw [subWordAux_cons_neg hc, List.all_cons, Bool.and_eq_true]
        exact ⟨all_head h, ih _ _ (all_tail h)⟩

theorem foldl_sub_all {P : Char → Bool} :
    ∀ (l : List (List Char × List Char)) (s : List Char),
      (∀ p ∈ l, p.2.all P = true) → s.all P = true →
      (l.foldl (fun acc p => subWord p.1 p.2 acc) s).all P = true := by
  intro l
  induction l with
  | nil => intro s _ h; exact h
  | cons q l' ih =>
    intro s hl h
    rw [List.foldl_cons]
    exact ih _ (fun p hp => hl p (by simp [hp]))
      (subWordAux_all (hl q (by simp)) s false 0 h)

theorem replacePunct_all {P : Char → Bool} (hP : P ' ' = true) {s : List Char}
    (h : s.all P = true) : (replacePunct s).all P = true := by
  rw [replacePunct, List.all_eq_true]
  intro x hx
  rw [List.mem_map] at hx
  obtain ⟨c, hc, hcx⟩ := hx
  by_cases hcp : (c = ',' || c = '.' || c = '-') = true
  · rw [← hcx, if_pos hcp]
    exact hP
  · rw [← hcx, if_neg hcp]
    exact List.all_eq_true.mp h c hc

theorem replacePunct_punctFree (s : List Char) :
    punctFree (replacePunct s) = true := by
  rw [punctFree, replacePunct, List.all_eq_true]
  intro x hx
  rw [List.mem_map] at hx
  obtain ⟨c, _, hcx⟩ := hx
  by_cases hcp : (c = ',' || c = '.' || c = '-') = true
  · rw [← hcx, if_pos hcp]
    decide
  · rw [← hcx, if_neg hcp]
    simpa using hcp

theorem replacePunct_id : ∀ {s : List Char}, punctFree s = true → replacePunct s = s := by
  intro s
  induction s with
  | nil => intro _; rfl
  | cons c cs ih =>
    intro h
    have h' : (c :: cs).all (fun c => !(c = ',' || c = '.' || c = '-')) = true := h
    have hc := all_head h'
    have hcf : (c = ',' || c = '.' || c = '-') = false := by
      revert hc
      cases hb : (c = ',' || c = '.' || c = '-' : Bool) <;> simp
    rw [replacePunct, List.map_cons, if_neg (by rw [hcf]; simp)]
    have htl := ih (all_tail h')
    rw [replacePunct] at htl
    rw [htl]


theorem abbrevSubs_good : ∀ p ∈ abbrevSubs, goodSub p := by decide

theorem abbrevSubs_distinct : ∀ p ∈ abbrevSubs, ∀ q ∈ abbrevSubs, p.1 ≠ q.2 := by
  decide

theorem upper_map_stable (x : List Char) :
    upperStable (x.map Char.toUpper) = true := by
  rw [upperStable, List.all_eq_true]
  intro c hc
  rw [List.mem_map] at hc
  obtain ⟨a, _, ha⟩ := hc
  rw [← ha]
  exact beq_iff_eq.mpr (toUpper_toUpper a)

theorem upper_map_id : ∀ {s : List Char}, upperStable s = true →
    s.map Char.toUpper = s := by
  intro s
  induction s with
  | nil => intro _; rfl
  | cons c cs ih =>
    intro h
    have h' : (c :: cs).all (fun c => c.toUpper == c) = true := h
    have hb : (c.toUpper == c) = true := @all_head (fun x => x.toUpper == x) c cs h'
    rw [List.map_cons, ih (all_tail h'), eq_of_beq hb]

theorem abbrevSubs_upperStable :
    ∀ p ∈ abbrevSubs, upperStable p.2 = true := by decide

theorem abbrevSubs_punctFree :
    ∀ p ∈ abbrevSubs, punctFree p.2 = true := by decide


theorem strip_wsAllSpace {s : List Char} (h : wsAllSpace s = true) :
    wsAllSpace (strip s) = true := strip_all h

theorem strip_upperStable {s : List Char} (h : upperStable s = true) :
    upperStable (strip s) = true := strip_all h

theorem strip_punctFree {s : List Char} (h : punctFree s = true) :
    punctFree (strip s) = true := strip_all h

theorem collapse_upperStable {s : List Char} (h : upperStable s = true) :
    upperStable (collapseWs s) = true := collapse_all (by decide) h

theorem collapse_punctFree {s : List Char} (h : punctFree s = true) :
    punctFree (collapseWs s) = true := collapse_all (by decide) h

theorem expand_upperStable {s : List Char} (h : upperStable s = true) :
    upperStable (expandAbbreviations s) = true := by
  rw [expandAbbreviations]
  exact foldl_sub_all _ _ abbrevSubs_upperStable h

theorem expand_punctFree {s : List Char} (h : punctFree s = true) :
    punctFree (expandAbbreviations s) = true := by
  rw [expandAbbreviations]
  exact foldl_sub_all _ _ abbrevSubs_punctFree h

theorem replacePunct_upperStable {s : List Char} (h : upperStable s = true) :
    upperStable (replacePunct s) = true := replacePunct_all (by decide) h

/-- Every normalizeCore output is in canonical form: its whitespace is
single plain spaces away from the edges, it is uppercase-stable, free of
the stripped punctuation, and matches no abbreviation pattern. -/
theorem normalizeCore_canonical (x : List Char) :
    wsAllSpace (normalizeCore x) = true ∧
    noDoubleWs (normalizeCore x) = true ∧
    isWsChar ((normalizeCore x).headD 'A') = false ∧
    isWsChar ((normalizeCore x).getLastD 'A') = false ∧
    upperStable (normalizeCore x) = true ∧
    punctFree (normalizeCore x) = true ∧
    (∀ p ∈ abbrevSubs, hasMatchAux p.1 false (normalizeCore x) = false) := by
  rw [normalizeCore]
  refine ⟨strip_wsAllSpace (collapse_wsAllSpace _),
          strip_noDoubleWs (collapse_noDoubleWs _),
          strip_headD_ws _, strip_getLastD_ws _, ?_, ?_, ?_⟩
  · exact strip_upperStable (collapse_upperStable (expand_upperStable
      (replacePunct_upperStable (strip_upperStable (collapse_upperStable
        (upper_map_stable x))))))
  · exact strip_punctFree (collapse_punctFree (expand_punctFree
      (replacePunct_punctFree _)))
  · intro p hp
    obtain ⟨hp1, hp2, _, _⟩ := abbrevSubs_good p hp
    apply hasMatch_strip hp1 hp2
    apply hasMatch_collapse hp1 hp2 false
    rcases p with ⟨A, T0⟩
    rw [expandAbbreviations]
    exact foldHit hp1 hp2 abbrevSubs _ hp
      (fun q hq => ⟨abbrevSubs_good q hq, abbrevSubs_distinct _ hp q hq⟩)

/-- normalizeCore is the identity on strings already in canonical form. -/
theorem normalizeCore_id {y : List Char}
    (h1 : wsAllSpace y = true) (h2 : noDoubleWs y = true)
    (h3 : isWsChar (y.headD 'A') = false) (h4 : isWsChar (y.getLastD 'A') = false)
    (h5 : upperStable y = true) (h6 : punctFree y = true)
    (h7 : ∀ p ∈ abbrevSubs, hasMatchAux p.1 false y = false) :
    normalizeCore y = y := by
  rw [normalizeCore, upper_map_id h5, collapse_eq_self h1 h2, strip_eq_self h3 h4,
    replacePunct_id h6]
  rw [show expandAbbreviations y = y from foldl_sub_id abbrevSubs y h7]
  rw [collapse_eq_self h1 h2, strip_eq_self h3 h4]

theorem normalizeCore_idem (x : List Char) :
    normalizeCore (normalizeCore x) = normalizeCore x := by
  obtain ⟨h1, h2, h3, h4, h5, h6, h7⟩ := normalizeCore_canonical x
  exact normalizeCore_id h1 h2 h3 h4 h5 h6 h7

theorem normalize_none_eq (x : List Char) (hx : x ≠ []) :
    normalize x none = normalizeCore x := by
  simp [normalize, hx]


/-- Claim C4: normalize is idempotent: for every input string x,
normalize(normalize(x)) == normalize(x), with no postcode argument on
either application. -/
theorem C4_normalize_idempotent (x : List Char) :
    normalize (normalize x none) none = normalize x none := by
  by_cases hx : x = []
  · rw [hx]
    rfl
  · rw [normalize_none_eq x hx]
    by_cases hc : normalizeCore x = []
    · rw [hc]
      rfl
    · rw [normalize_none_eq _ hc, normalizeCore_idem]

/-! ## Similarity score properties -/

theorem lcsLen_nil_left (b : List Char) : lcsLen [] b = 0 := by
  simp [lcsLen]

theorem lcsLen_nil_right (a : List Char) : lcsLen a [] = 0 := by
  cases a <;> simp [lcsLen]

theorem lcsLen_cons_cons (x y : Char) (as bs : List Char) :
    lcsLen (x :: as) (y :: bs) =
      if x = y then lcsLen as bs + 1
      else max (lcsLen (x :: as) bs) (lcsLen as (y :: bs)) := by
  simp [lcsLen]

theorem two_lcsLen_le : ∀ (a b : List Char),
    2 * lcsLen a b ≤ a.length + b.length := by
  intro a
  induction a with
  | nil =>
    intro b
    rw [lcsLen_nil_left]
    omega
  | cons x as ihA =>
    intro b
    induction b with
    | nil =>
      rw [lcsLen_nil_right]
      omega
    | cons y bs ihB =>
      rw [lcsLen_cons_cons]
      by_cases hxy : x = y
      · rw [if_pos hxy]
        have := ihA bs
        simp only [List.length_cons]
        omega
      · rw [if_neg hxy]
        rcases Nat.le_total (lcsLen (x :: as) bs) (lcsLen as (y :: bs)) with hle | hle
        · rw [Nat.max_eq_right hle]
          have := ihA (y :: bs)
          simp only [List.length_cons] at this ⊢
          omega
        · rw [Nat.max_eq_left hle]
          simp only [List.length_cons] at ihB ⊢
          omega

theorem lcsLen_comm : ∀ (a b : List Char), lcsLen a b = lcsLen b a := by
  intro a
  induction a with
  | nil =>
    intro b
    rw [lcsLen_nil_left, lcsLen_nil_right]
  | cons x as ihA =>
    intro b
    induction b with
    | nil =>
      rw [lcsLen_nil_right, lcsLen_nil_left]
    | cons y bs ihB =>
      rw [lcsLen_cons_cons, lcsLen_cons_cons]
      by_cases hxy : x = y
      · rw [if_pos hxy, if_pos hxy.symm, ihA bs]
      · rw [if_neg hxy, if_neg fun h => hxy h.symm]
        rw [ihB, ihA (y :: bs), Nat.max_comm]

theorem lcsLen_self : ∀ (x : List Char), lcsLen x x = x.length := by
  intro x
  induction x with
  | nil => exact lcsLen_nil_left []
  | cons c cs ih =>
    rw [lcsLen_cons_cons, if_pos rfl, ih, List.length_cons]

theorem fuzzScore_nonneg (a b : List Char) : 0 ≤ fuzzScore a b := by
  rw [fuzzScore]
  split
  · norm_num
  · positivity

theorem fuzzScore_le_100 (a b : List Char) : fuzzScore a b ≤ 100 := by
  rw [fuzzScore]
  split
  · norm_num
  · next h =>
    have hpos : 0 < a.length + b.length := Nat.pos_of_ne_zero h
    have hlen : 0 < ((a.length : ℚ) + b.length) := by
      exact_mod_cast hpos
    rw [div_le_iff₀ hlen]
    have h2 := two_lcsLen_le a b
    have h3 : ((2 * lcsLen a b : Nat) : ℚ) ≤ ((a.length + b.length : Nat) : ℚ) := by
      exact_mod_cast h2
    push_cast at h3
    nlinarith

theorem fuzzScore_comm (a b : List Char) : fuzzScore a b = fuzzScore b a := by
  rw [fuzzScore, fuzzScore, lcsLen_comm a b, Nat.add_comm a.length b.length,
    add_comm (a.length : ℚ) (b.length : ℚ)]

theorem fuzzScore_self (x : List Char) : fuzzScore x x = 100 := by
  rw [fuzzScore]
  split
  · rfl
  · next h =>
    rw [lcsLen_self]
    have hpos : 0 < x.length + x.length := Nat.pos_of_ne_zero h
    have hlen : ((x.length : ℚ) + x.length) ≠ 0 := by
      have : (0:ℚ) < (x.length : ℚ) + x.length := by
        exact_mod_cast hpos
      linarith
    field_simp
    ring

/-- Claim C3: calculate_similarity returns 0 when either operand is empty,
always lies in the interval 0..100, is symmetric, and equals 100 on every
pair of equal non-empty operands. -/
theorem C3_similarity_properties (a b : List Char) :
    ((a = [] ∨ b = []) → calculate_similarity a b = 0) ∧
    0 ≤ calculate_similarity a b ∧
    calculate_similarity a b ≤ 100 ∧
    calculate_similarity a b = calculate_similarity b a ∧
    (a ≠ [] → calculate_similarity a a = 100) := by
  refine ⟨?_, ?_, ?_, ?_, ?_⟩
  · intro h
    rw [calculate_similarity, if_pos]
    rcases h with h | h <;> simp [h]
  · rw [calculate_similarity]
    split
    · norm_num
    · exact fuzzScore_nonneg _ _
  · rw [calculate_similarity]
    split
    · norm_num
    · exact fuzzScore_le_100 _ _
  · rw [calculate_similarity, calculate_similarity]
    by_cases ha : a = []
    · by_cases hb : b = [] <;> simp [ha, hb]
    · by_cases hb : b = []
      · simp [ha, hb]
      · rw [if_neg (by simp [ha, hb]), if_neg (by simp [ha, hb])]
        exact fuzzScore_comm _ _
  · intro ha
    rw [calculate_similarity, if_neg (by simp [ha])]
    exact fuzzScore_self _

/-- Witness for C3 at concrete inputs: an empty operand scores 0, and a
non-empty string scores 100 against itself. -/
theorem C3_witness :
    calculate_similarity [] ['A'] = 0 ∧ calculate_similarity ['A'] ['A'] = 100 :=
  ⟨(C3_similarity_properties [] ['A']).1 (Or.inl rfl),
   (C3_similarity_properties ['A'] ['A']).2.2.2.2 (by decide)⟩


/-! ## Postcode formatting and appending -/

theorem isSubstring_nil_left (hay : List Char) : isSubstring [] hay = true := by
  induction hay with
  | nil => rfl
  | cons c t ih => simp [isSubstring]

theorem format_postcode_eq_spec {pc : List Char} (hpc : pc ≠ []) :
    format_postcode pc = format_postcode_spec pc := by
  rw [format_postcode, format_postcode_spec, if_neg hpc]
  by_cases h : 5 ≤ (stripSpacesUpper pc).length ∧ (stripSpacesUpper pc).length ≤ 7
  · rw [if_pos h, if_neg]
    simp only [Bool.or_eq_true, decide_eq_true_eq, not_or]
    omega
  · rw [if_neg h, if_pos]
    simp only [Bool.or_eq_true, decide_eq_true_eq]
    omega


theorem normalize_some_eq (address : List Char) (ha : address ≠ [])
    {pc : List Char} (hpc : pc ≠ []) :
    normalize address (some pc) =
      (if isSubstring (format_postcode pc) (normalizeCore address) = true
       then normalizeCore address
       else normalizeCore address ++ ' ' :: format_postcode pc) := by
  cases pc with
  | nil => exact absurd rfl hpc
  | cons c t =>
    rw [normalize, if_neg ha]
    by_cases hsub : isSubstring (format_postcode (c :: t)) (normalizeCore address) = true
    · rw [if_pos hsub]
      simp [hsub]
    · rw [if_neg hsub]
      have hsub' : isSubstring (format_postcode (c :: t)) (normalizeCore address) = false := by
        revert hsub
        cases isSubstring (format_postcode (c :: t)) (normalizeCore address) <;> simp
      have hfp : format_postcode (c :: t) ≠ [] := by
        intro hnil
        rw [hnil, isSubstring_nil_left] at hsub'
        cases hsub'
      simp [hsub', hfp]

/-- Claim C7, amended: for a non-empty address and supplied postcode, the
formatted postcode is obtained by removing internal SPACE characters only
(the code's postcode.replace removes just the space character, not the
whole whitespace class) and uppercasing, with one space inserted 3
characters from the end exactly when the space-stripped length is 5..7
(otherwise passed through), and it is appended to the normalized address
exactly when not already present in it. -/
theorem C7_postcode_rule (address pc : List Char)
    (ha : address ≠ []) (hpc : pc ≠ []) :
    format_postcode pc = format_postcode_spec pc ∧
    normalize address (some pc) =
      (if isSubstring (format_postcode pc) (normalizeCore address) = true
       then normalizeCore address
       else normalizeCore address ++ ' ' :: format_postcode pc) :=
  ⟨format_postcode_eq_spec hpc, normalize_some_eq address ha hpc⟩

/-- Witness for C7 at a concrete address and postcode. -/
theorem C7_witness :
    format_postcode ("sw1a1aa".toList) = format_postcode_spec ("sw1a1aa".toList) ∧
    normalize ("1 Rd".toList) (some ("sw1a1aa".toList)) =
      (if isSubstring (format_postcode ("sw1a1aa".toList))
            (normalizeCore ("1 Rd".toList)) = true
       then normalizeCore ("1 Rd".toList)
       else normalizeCore ("1 Rd".toList) ++ ' ' :: format_postcode ("sw1a1aa".toList)) :=
  C7_postcode_rule _ _ (by decide) (by decide)

/-- The claim as stated is false: the code strips only space characters, so
a tab inside the postcode survives.  On "SW1A\t1AA" the code keeps the tab
(8 characters, passed through unchanged), while the claim's rule, which
strips all internal whitespace, yields "SW1A 1AA"; the tab even reaches the
final normalized address. -/
theorem C7_counterexample :
    format_postcode ("SW1A\t1AA".toList) = ("SW1A\t1AA".toList) ∧
    format_postcode_claim ("SW1A\t1AA".toList) = ("SW1A 1AA".toList) ∧
    format_postcode ("SW1A\t1AA".toList) ≠ format_postcode_claim ("SW1A\t1AA".toList) ∧
    normalize ("1 Rd".toList) (some ("SW1A\t1AA".toList))
      = ("1 ROAD SW1A\t1AA".toList) := by
  refine ⟨by decide, by decide, by decide, by decide⟩


/-! ## Shape of normalize output (leading, trailing, double spaces) -/

theorem getLastD_cons_cons (c d : Char) (r : List Char) (e : Char) :
    (c :: d :: r).getLastD e = (d :: r).getLastD e := by
  rw [List.getLastD_eq_getLast?, List.getLastD_eq_getLast?, List.getLast?_cons_cons]

theorem noDoubleSpace_cons2 {c d : Char} {rest : List Char} :
    noDoubleSpace (c :: d :: rest) = true ↔
      (¬(c = ' ') ∨ ¬(d = ' ')) ∧ noDoubleSpace (d :: rest) = true := by
  simp [noDoubleSpace]

theorem noDoubleWs_imp_noDoubleSpace :
    ∀ {s : List Char}, noDoubleWs s = true → noDoubleSpace s = true := by
  intro s
  induction s with
  | nil => intro _; rfl
  | cons c cs ih =>
    intro h
    cases cs with
    | nil => rfl
    | cons d rest =>
      have h' := noDoubleWs_cons2.mp h
      refine noDoubleSpace_cons2.mpr ⟨?_, ih h'.2⟩
      rcases h'.1 with hc | hd
      · left
        intro hcon
        rw [hcon] at hc
        cases hc
      · right
        intro hcon
        rw [hcon] at hd
        cases hd

theorem noDoubleSpace_of_nonspace :
    ∀ {s : List Char}, (∀ c ∈ s, ¬(c = ' ')) → noDoubleSpace s = true := by
  intro s
  induction s with
  | nil => intro _; rfl
  | cons c cs ih =>
    intro h
    cases cs with
    | nil => rfl
    | cons d rest =>
      refine noDoubleSpace_cons2.mpr ⟨Or.inl (h c (by simp)), ?_⟩
      exact ih fun x hx => h x (by simp at hx ⊢; tauto)

theorem headD_nonspace {s : List Char} (h : ∀ c ∈ s, ¬(c = ' ')) :
    ¬(s.headD 'A' = ' ') := by
  cases s with
  | nil => decide
  | cons c cs => exact h c (by simp)

theorem getLastD_nonspace :
    ∀ {s : List Char}, (∀ c ∈ s, ¬(c = ' ')) → ¬(s.getLastD 'A' = ' ') := by
  intro s
  induction s with
  | nil => intro _; decide
  | cons c cs ih =>
    intro h
    cases cs with
    | nil => exact h c (by simp)
    | cons d rest =>
      rw [getLastD_cons_cons]
      exact ih fun x hx => h x (by simp at hx ⊢; tauto)

theorem getLastD_append_cons :
    ∀ (u : List Char) (y : Char) (v : List Char) (e : Char),
      (u ++ y :: v).getLastD e = (y :: v).getLastD e := by
  intro u
  induction u with
  | nil => intro y v e; rfl
  | cons c u' ih =>
    intro y v e
    rw [show (c :: u') ++ y :: v = c :: (u' ++ y :: v) from rfl]
    cases hu : u' ++ y :: v with
    | nil => exact absurd hu (by simp)
    | cons z zs =>
      rw [show (c :: z :: zs).getLastD e = (z :: zs).getLastD e from
            getLastD_cons_cons c z zs e, ← hu, ih]

theorem noDoubleSpace_glue :
    ∀ {x y : List Char}, noDoubleSpace x = true → noDoubleSpace y = true →
      ¬(x.getLastD 'A' = ' ') → ¬(y.headD 'A' = ' ') →
      noDoubleSpace (x ++ ' ' :: y) = true := by
  intro x
  induction x with
  | nil =>
    intro y _ hy _ hyh
    cases y with
    | nil => rfl
    | cons d r =>
      exact noDoubleSpace_cons2.mpr ⟨Or.inr hyh, hy⟩
  | cons c x' ih =>
    intro y hx hy hxl hyh
    cases x' with
    | nil =>
      rw [show (([c] : List Char) ++ ' ' :: y) = c :: ' ' :: y from rfl]
      refine noDoubleSpace_cons2.mpr ⟨Or.inl hxl, ?_⟩
      exact ih rfl hy (by decide) hyh
    | cons d x'' =>
      rw [show ((c :: d :: x'') ++ ' ' :: y) = c :: ((d :: x'') ++ ' ' :: y) from rfl]
      have hx' := noDoubleSpace_cons2.mp hx
      have hlast : ¬((d :: x'').getLastD 'A' = ' ') := by
        rw [← getLastD_cons_cons c d x'' 'A']
        exact hxl
      have hrec := ih hx'.2 hy hlast hyh
      cases hv : (d :: x'') ++ ' ' :: y with
      | nil => exact absurd hv (by simp)
      | cons z zs =>
        have hz : z = d := by
          have : ((d :: x'') ++ ' ' :: y).headD 'A' = d := rfl
          rw [hv] at this
          exact this
        rw [hv] at hrec
        refine noDoubleSpace_cons2.mpr ⟨?_, hrec⟩
        rw [hz]
        rcases hx'.1 with hh | hh
        · exact Or.inl hh
        · exact Or.inr hh

theorem stripSpacesUpper_no_space (pc : List Char) :
    ∀ c ∈ stripSpacesUpper pc, ¬(c = ' ') := by
  intro c hc
  rw [stripSpacesUpper, List.mem_map] at hc
  obtain ⟨a, ha, rfl⟩ := hc
  have hne : ¬(a = ' ') := by
    have := (List.mem_filter.mp ha).2
    simpa using this
  exact toUpper_not_space hne

theorem format_postcode_facts (pc : List Char) :
    noDoubleSpace (format_postcode pc) = true ∧
    ¬((format_postcode pc).headD 'A' = ' ') ∧
    ¬((format_postcode pc).getLastD 'A' = ' ') := by
  rw [format_postcode]
  by_cases hpc : pc = []
  · rw [if_pos hpc]
    exact ⟨rfl, by decide, by decide⟩
  · rw [if_neg hpc]
    have hns := stripSpacesUpper_no_space pc
    by_cases hlen : ((stripSpacesUpper pc).length < 5 ||
        7 < (stripSpacesUpper pc).length) = true
    · rw [if_pos hlen]
      exact ⟨noDoubleSpace_of_nonspace hns, headD_nonspace hns, getLastD_nonspace hns⟩
    · rw [if_neg hlen]
      have hlen' : 5 ≤ (stripSpacesUpper pc).length ∧
          (stripSpacesUpper pc).length ≤ 7 := by
        simp only [Bool.or_eq_true, decide_eq_true_eq, not_or] at hlen
        omega
      have htake : ∀ c ∈ (stripSpacesUpper pc).take ((stripSpacesUpper pc).length - 3),
          ¬(c = ' ') := fun c hc => hns c (List.mem_of_mem_take hc)
      have hdrop : ∀ c ∈ (stripSpacesUpper pc).drop ((stripSpacesUpper pc).length - 3),
          ¬(c = ' ') := fun c hc => hns c (List.mem_of_mem_drop hc)
      have htakene : (stripSpacesUpper pc).take ((stripSpacesUpper pc).length - 3) ≠ [] := by
        have : ((stripSpacesUpper pc).take ((stripSpacesUpper pc).length - 3)).length
            = min ((stripSpacesUpper pc).length - 3) (stripSpacesUpper pc).length := by
          rw [List.length_take]
        intro hcon
        rw [hcon] at this
        simp at this
        omega
      have hdropne : (stripSpacesUpper pc).drop ((stripSpacesUpper pc).length - 3) ≠ [] := by
        have : ((stripSpacesUpper pc).drop ((stripSpacesUpper pc).length - 3)).length
            = (stripSpacesUpper pc).length - ((stripSpacesUpper pc).length - 3) := by
          rw [List.length_drop]
        intro hcon
        rw [hcon] at this
        simp at this
        omega
      refine ⟨?_, ?_, ?_⟩
      · exact noDoubleSpace_glue (noDoubleSpace_of_nonspace htake)
          (noDoubleSpace_of_nonspace hdrop) (getLastD_nonspace htake)
          (headD_nonspace hdrop)
      · rw [headD_append_left htakene]
        exact headD_nonspace htake
      · cases hd : (stripSpacesUpper pc).drop ((stripSpacesUpper pc).length - 3) with
        | nil => exact absurd hd hdropne
        | cons z zs =>
          rw [getLastD_append_cons]
          rw [getLastD_cons_cons]
          rw [← hd]
          exact getLastD_nonspace hdrop


/-- Claim C10, amended: the string returned by normalize contains no two
consecutive space characters and never ends with a space; it never begins
with a space either, except that when the address normalizes to the empty
string and a postcode is appended the result is exactly one space followed
by the formatted postcode; with no postcode supplied there is no leading or
trailing whitespace of any kind. -/
theorem C10_amended (address : List Char) (postcode : Option (List Char)) :
    noDoubleSpace (normalize address postcode) = true ∧
    ¬((normalize address postcode).getLastD 'A' = ' ') ∧
    ((normalize address postcode).headD 'A' = ' ' →
      normalizeCore address = [] ∧ ∃ pc, postcode = some pc ∧
        normalize address postcode = ' ' :: format_postcode pc) ∧
    (postcode = none →
      isWsChar ((normalize address postcode).headD 'A') = false ∧
      isWsChar ((normalize address postcode).getLastD 'A') = false) := by
  obtain ⟨hws, hnd, hh, hl, _, _, _⟩ := normalizeCore_canonical address
  have hnds : noDoubleSpace (normalizeCore address) = true :=
    noDoubleWs_imp_noDoubleSpace hnd
  have hlast : ¬((normalizeCore address).getLastD 'A' = ' ') := by
    intro hcon
    rw [hcon] at hl
    revert hl
    decide
  have hhead : ¬((normalizeCore address).headD 'A' = ' ') := by
    intro hcon
    rw [hcon] at hh
    revert hh
    decide
  by_cases ha : address = []
  · rw [ha]
    refine ⟨rfl, by exact (by decide : ¬('A' = ' ')), ?_, ?_⟩
    · intro hcon
      exact absurd hcon (by exact (by decide : ¬('A' = ' ')))
    · intro _
      exact ⟨(by decide : isWsChar 'A' = false), (by decide : isWsChar 'A' = false)⟩
  · cases postcode with
    | none =>
      rw [normalize_none_eq address ha]
      exact ⟨hnds, hlast, fun hsp => absurd hsp hhead, fun _ => ⟨hh, hl⟩⟩
    | some pc =>
      cases pc with
      | nil =>
        have heq : normalize address (some []) = normalizeCore address := by
          simp [normalize, ha]
        rw [heq]
        exact ⟨hnds, hlast, fun hsp => absurd hsp hhead,
               fun hcon => Option.noConfusion hcon⟩
      | cons c t =>
        rw [normalize_some_eq address ha (by simp)]
        by_cases hsub : isSubstring (format_postcode (c :: t))
            (normalizeCore address) = true
        · rw [if_pos hsub]
          exact ⟨hnds, hlast, fun hsp => absurd hsp hhead,
                 fun hcon => Option.noConfusion hcon⟩
        · rw [if_neg hsub]
          obtain ⟨hfnd, hfh, hfl⟩ := format_postcode_facts (c :: t)
          have hfne : format_postcode (c :: t) ≠ [] := by
            intro hnil
            rw [hnil, isSubstring_nil_left] at hsub
            exact hsub rfl
          refine ⟨?_, ?_, ?_, fun hcon => Option.noConfusion hcon⟩
          · exact noDoubleSpace_glue hnds hfnd hlast hfh
          · cases hf : format_postcode (c :: t) with
            | nil => exact absurd hf hfne
            | cons z zs =>
              rw [getLastD_append_cons, getLastD_cons_cons, ← hf]
              exact hfl
          · intro hsp
            by_cases hcore : normalizeCore address = []
            · refine ⟨hcore, c :: t, rfl, ?_⟩
              rw [hcore, List.nil_append]
            · exfalso
              have hha : (normalizeCore address ++ ' ' ::
                  format_postcode (c :: t)).headD 'A'
                    = (normalizeCore address).headD 'A' :=
                headD_append_left hcore 'A'
              rw [hha] at hsp
              exact hhead hsp

/-- The claim as stated is false: the nonempty address "," normalizes to
the empty string, and appending the postcode yields a leading space. -/
theorem C10_counterexample :
    normalize (",".toList) (some ("AB12CD".toList)) = (" AB1 2CD".toList) ∧
    isWsChar ((normalize (",".toList) (some ("AB12CD".toList))).headD 'A') = true := by
  constructor
  · decide
  · decide

/-- Witness for the exceptional branch of C10_amended at a concrete input. -/
theorem C10_witness :
    normalizeCore (",".toList) = [] ∧
    ∃ pc, (some ("AB12CD".toList) : Option (List Char)) = some pc ∧
      normalize (",".toList) (some ("AB12CD".toList)) = ' ' :: format_postcode pc :=
  (C10_amended (",".toList) (some ("AB12CD".toList))).2.2.1 (by decide)


/-! ## Verification service lemmas -/

theorem dbGet_nil (i : String) : dbGet ([] : DB) i = none := rfl

theorem dbGet_cons (p : String × FraudMatchRow) (db : DB) (i : String) :
    dbGet (p :: db) i = if (p.1 == i) = true then some p.2 else dbGet db i := by
  rw [dbGet, List.find?_cons]
  cases hb : p.1 == i
  · simp [dbGet]
  · simp

theorem dbSet_cons (p : String × FraudMatchRow) (db : DB) (i : String)
    (f : FraudMatchRow) :
    dbSet (p :: db) i f = (if (p.1 == i) = true then (i, f) else p) :: dbSet db i f := by
  rw [dbSet, List.map_cons]
  rfl

theorem dbGet_dbSet_self : ∀ {db : DB} {i : String} {fm f : FraudMatchRow},
    dbGet db i = some fm → dbGet (dbSet db i f) i = some f := by
  intro db
  induction db with
  | nil =>
    intro i fm f h
    rw [dbGet_nil] at h
    cases h
  | cons p db' ih =>
    intro i fm f h
    rw [dbGet_cons] at h
    rw [dbSet_cons]
    by_cases hp : (p.1 == i) = true
    · rw [if_pos hp, dbGet_cons]
      simp
    · rw [if_neg hp, dbGet_cons, if_neg hp]
      rw [if_neg hp] at h
      exact ih h

theorem dbGet_dbSet_none : ∀ {db : DB} {i j : String} {f : FraudMatchRow},
    dbGet db j = none → dbGet (dbSet db i f) j = none := by
  intro db
  induction db with
  | nil =>
    intro i j f _
    rfl
  | cons p db' ih =>
    intro i j f h
    rw [dbGet_cons] at h
    by_cases hp : (p.1 == j) = true
    · rw [if_pos hp] at h
      cases h
    · rw [if_neg hp] at h
      rw [dbSet_cons, dbGet_cons]
      by_cases hq : (p.1 == i) = true
      · rw [if_pos hq]
        have hij : ¬((i == j) = true) := by
          intro hcon
          have h1 : p.1 = i := eq_of_beq hq
          have h2 : i = j := eq_of_beq hcon
          exact hp (by rw [h1, h2]; exact beq_self_eq_true j)
        rw [if_neg hij]
        exact ih h
      · rw [if_neg hq, if_neg hp]
        exact ih h

theorem verify_single_match_unknown {threshold : ℚ} {api : ApiClient}
    {now : Nat} {match_id : String} {db : DB}
    (h : dbGet db match_id = none) :
    verify_single_match threshold api now match_id db =
      (notFoundResult match_id now, db) := by
  rw [verify_single_match, h]

theorem verify_single_match_exn {threshold : ℚ} {api : ApiClient} {now : Nat}
    {match_id : String} {db : DB} {fm : FraudMatchRow} {msg : String}
    (hg : dbGet db match_id = some fm)
    (hapi : api fm.ppd_full_address fm.ppd_postcode fm.property_listing.client_name
      = ApiOutcome.exn msg) :
    verify_single_match threshold api now match_id db =
      ({ match_id := match_id, property_address := fm.property_listing.address,
         client_name := fm.property_listing.client_name,
         verification_status := "error", verified_owner_name := none,
         is_confirmed_fraud := false, verified_at := now,
         error_message := some msg },
       dbSet db match_id { fm with verification_status := "error",
                                   is_confirmed_fraud := false,
                                   verified_at := some now }) := by
  simp only [verify_single_match, hg, hapi]

theorem verify_single_match_apiError {threshold : ℚ} {api : ApiClient}
    {now : Nat} {match_id : String} {db : DB} {fm : FraudMatchRow}
    {emsg : Option String} {raw : Option String}
    (hg : dbGet db match_id = some fm)
    (hapi : api fm.ppd_full_address fm.ppd_postcode fm.property_listing.client_name
      = ApiOutcome.apiError emsg raw) :
    verify_single_match threshold api now match_id db =
      ({ match_id := match_id, property_address := fm.property_listing.address,
         client_name := fm.property_listing.client_name,
         verification_status := "error", verified_owner_name := none,
         is_confirmed_fraud := false, verified_at := now,
         error_message := emsg },
       dbSet db match_id { fm with land_registry_response := raw,
                                   verified_at := some now,
                                   verification_status := "error",
                                   is_confirmed_fraud := false }) := by
  simp only [verify_single_match, hg, hapi]

theorem verify_single_match_success_confirmed {threshold : ℚ} {api : ApiClient}
    {now : Nat} {match_id : String} {db : DB} {fm : FraudMatchRow}
    {owner : Option String} {raw : Option String}
    (hg : dbGet db match_id = some fm)
    (hapi : api fm.ppd_full_address fm.ppd_postcode fm.property_listing.client_name
      = ApiOutcome.success owner raw)
    (hc : compare_owner_names threshold owner fm.property_listing.client_name = true) :
    verify_single_match threshold api now match_id db =
      ({ match_id := match_id, property_address := fm.property_listing.address,
         client_name := fm.property_listing.client_name,
         verification_status := "confirmed_fraud",
         verified_owner_name := owner, is_confirmed_fraud := true,
         verified_at := now, error_message := none },
       dbSet db match_id { fm with land_registry_response := raw,
                                   verified_at := some now,
                                   verified_owner_name := owner,
                                   verification_status := "confirmed_fraud",
                                   is_confirmed_fraud := true }) := by
  simp only [verify_single_match, hg, hapi, hc, if_true]

theorem verify_single_match_success_not {threshold : ℚ} {api : ApiClient}
    {now : Nat} {match_id : String} {db : DB} {fm : FraudMatchRow}
    {owner : Option String} {raw : Option String}
    (hg : dbGet db match_id = some fm)
    (hapi : api fm.ppd_full_address fm.ppd_postcode fm.property_listing.client_name
      = ApiOutcome.success owner raw)
    (hc : compare_owner_names threshold owner fm.property_listing.client_name = false) :
    verify_single_match threshold api now match_id db =
      ({ match_id := match_id, property_address := fm.property_listing.address,
         client_name := fm.property_listing.client_name,
         verification_status := "not_fraud",
         verified_owner_name := owner, is_confirmed_fraud := false,
         verified_at := now, error_message := none },
       dbSet db match_id { fm with land_registry_response := raw,
                                   verified_at := some now,
                                   verified_owner_name := owner,
                                   verification_status := "not_fraud",
                                   is_confirmed_fraud := false }) := by
  simp only [verify_single_match, hg, hapi, hc, Bool.false_eq_true, if_false]

theorem verify_single_match_db {threshold : ℚ} {api : ApiClient} {now : Nat}
    {match_id j : String} {db : DB} (h : dbGet db j = none) :
    dbGet (verify_single_match threshold api now match_id db).2 j = none := by
  cases hg : dbGet db match_id with
  | none =>
    rw [verify_single_match_unknown hg]
    exact h
  | some fm =>
    cases hapi : api fm.ppd_full_address fm.ppd_postcode
        fm.property_listing.client_name with
    | exn msg =>
      rw [verify_single_match_exn hg hapi]
      exact dbGet_dbSet_none h
    | apiError emsg raw =>
      rw [verify_single_match_apiError hg hapi]
      exact dbGet_dbSet_none h
    | success owner raw =>
      cases hc : compare_owner_names threshold owner fm.property_listing.client_name
      · rw [verify_single_match_success_not hg hapi hc]
        exact dbGet_dbSet_none h
      · rw [verify_single_match_success_confirmed hg hapi hc]
        exact dbGet_dbSet_none h


/-- Claim C1 is false as stated: confirmed_fraud is not terminal.  A match
whose status is already confirmed_fraud is re-verified by
verify_single_match, and a failing lookup overwrites its status with
error. -/
theorem C1_counterexample :
    (sampleRow "J SMITH" "confirmed_fraud").verification_status = "confirmed_fraud" ∧
    (dbGet (verify_single_match 85
        (fun _ _ _ => ApiOutcome.apiError (some "API request timed out") none) 7 "m1"
        [("m1", sampleRow "J SMITH" "confirmed_fraud")]).2 "m1").map
        (fun r => r.verification_status) = some "error" := by
  constructor
  · rfl
  · rfl

/-- Claim C1, amended: after any verify_single_match call on an existing
match its status is one of confirmed_fraud, not_fraud, error — so
suspicious and error move only into that set — but confirmed_fraud and
not_fraud are not terminal: the call re-verifies the match whatever its
current status, and may overwrite them too. -/
theorem C1_amended_status_overwritten (threshold : ℚ) (api : ApiClient)
    (now : Nat) (id : String) (db : DB) (fm : FraudMatchRow)
    (h : dbGet db id = some fm) :
    ∃ fm', dbGet (verify_single_match threshold api now id db).2 id = some fm' ∧
      (fm'.verification_status = "confirmed_fraud" ∨
       fm'.verification_status = "not_fraud" ∨
       fm'.verification_status = "error") := by
  cases hapi : api fm.ppd_full_address fm.ppd_postcode
      fm.property_listing.client_name with
  | exn msg =>
    rw [verify_single_match_exn h hapi]
    exact ⟨_, dbGet_dbSet_self h, Or.inr (Or.inr rfl)⟩
  | apiError emsg raw =>
    rw [verify_single_match_apiError h hapi]
    exact ⟨_, dbGet_dbSet_self h, Or.inr (Or.inr rfl)⟩
  | success owner raw =>
    cases hc : compare_owner_names threshold owner fm.property_listing.client_name
    · rw [verify_single_match_success_not h hapi hc]
      exact ⟨_, dbGet_dbSet_self h, Or.inr (Or.inl rfl)⟩
    · rw [verify_single_match_success_confirmed h hapi hc]
      exact ⟨_, dbGet_dbSet_self h, Or.inl rfl⟩

/-- Witness for the amended C1 at a concrete database and lookup. -/
theorem C1_witness :
    ∃ fm', dbGet (verify_single_match 85
        (fun _ _ _ => ApiOutcome.apiError (some "API request timed out") none) 7 "m1"
        [("m1", sampleRow "J SMITH" "confirmed_fraud")]).2 "m1" = some fm' ∧
      (fm'.verification_status = "confirmed_fraud" ∨
       fm'.verification_status = "not_fraud" ∨
       fm'.verification_status = "error") :=
  C1_amended_status_overwritten 85 _ 7 "m1" _ (sampleRow "J SMITH" "confirmed_fraud") rfl


/-- Claim C6: when the lookup fails — an error result or a raised
exception — the match is marked error with is_confirmed_fraud false, the
failure reason is recorded in the result's error_message, the stored
verified_owner_name is left as it was (and the result carries none), and
verified_at is stamped; verified_at is stamped in every outcome, the
success outcomes included. -/
theorem C6_failure_outcomes (threshold : ℚ) (api : ApiClient) (now : Nat)
    (id : String) (db : DB) (fm : FraudMatchRow)
    (h : dbGet db id = some fm) :
    (∀ emsg raw,
      api fm.ppd_full_address fm.ppd_postcode fm.property_listing.client_name
        = ApiOutcome.apiError emsg raw →
      (verify_single_match threshold api now id db).1.verification_status = "error" ∧
      (verify_single_match threshold api now id db).1.is_confirmed_fraud = false ∧
      (verify_single_match threshold api now id db).1.error_message = emsg ∧
      (verify_single_match threshold api now id db).1.verified_owner_name = none ∧
      dbGet (verify_single_match threshold api now id db).2 id =
        some { fm with land_registry_response := raw, verified_at := some now,
                       verification_status := "error", is_confirmed_fraud := false }) ∧
    (∀ msg,
      api fm.ppd_full_address fm.ppd_postcode fm.property_listing.client_name
        = ApiOutcome.exn msg →
      (verify_single_match threshold api now id db).1.verification_status = "error" ∧
      (verify_single_match threshold api now id db).1.is_confirmed_fraud = false ∧
      (verify_single_match threshold api now id db).1.error_message = some msg ∧
      (verify_single_match threshold api now id db).1.verified_owner_name = none ∧
      dbGet (verify_single_match threshold api now id db).2 id =
        some { fm with verification_status := "error", is_confirmed_fraud := false,
                       verified_at := some now }) ∧
    (∀ fm', dbGet (verify_single_match threshold api now id db).2 id = some fm' →
      fm'.verified_at = some now) := by
  refine ⟨?_, ?_, ?_⟩
  · intro emsg raw hapi
    rw [verify_single_match_apiError h hapi]
    exact ⟨rfl, rfl, rfl, rfl, dbGet_dbSet_self h⟩
  · intro msg hapi
    rw [verify_single_match_exn h hapi]
    exact ⟨rfl, rfl, rfl, rfl, dbGet_dbSet_self h⟩
  · intro fm' hf
    cases hapi : api fm.ppd_full_address fm.ppd_postcode
        fm.property_listing.client_name with
    | exn msg =>
      rw [verify_single_match_exn h hapi, dbGet_dbSet_self h] at hf
      cases hf
      rfl
    | apiError emsg raw =>
      rw [verify_single_match_apiError h hapi, dbGet_dbSet_self h] at hf
      cases hf
      rfl
    | success owner raw =>
      cases hc : compare_owner_names threshold owner fm.property_listing.client_name
      · rw [verify_single_match_success_not h hapi hc, dbGet_dbSet_self h] at hf
        cases hf
        rfl
      · rw [verify_single_match_success_confirmed h hapi hc,
          dbGet_dbSet_self h] at hf
        cases hf
        rfl

/-- Witness for C6 at a concrete database and a timed-out lookup. -/
theorem C6_witness :
    (verify_single_match 85
        (fun _ _ _ => ApiOutcome.apiError (some "API request timed out") none) 3 "m1"
        [("m1", sampleRow "J SMITH" "suspicious")]).1.verification_status = "error" ∧
    (verify_single_match 85
        (fun _ _ _ => ApiOutcome.apiError (some "API request timed out") none) 3 "m1"
        [("m1", sampleRow "J SMITH" "suspicious")]).1.is_confirmed_fraud = false ∧
    (verify_single_match 85
        (fun _ _ _ => ApiOutcome.apiError (some "API request timed out") none) 3 "m1"
        [("m1", sampleRow "J SMITH" "suspicious")]).1.error_message
      = some "API request timed out" ∧
    (verify_single_match 85
        (fun _ _ _ => ApiOutcome.apiError (some "API request timed out") none) 3 "m1"
        [("m1", sampleRow "J SMITH" "suspicious")]).1.verified_owner_name = none ∧
    dbGet (verify_single_match 85
        (fun _ _ _ => ApiOutcome.apiError (some "API request timed out") none) 3 "m1"
        [("m1", sampleRow "J SMITH" "suspicious")]).2 "m1" =
      some { sampleRow "J SMITH" "suspicious" with
               land_registry_response := none, verified_at := some 3,
               verification_status := "error", is_confirmed_fraud := false } :=
  (C6_failure_outcomes 85
      (fun _ _ _ => ApiOutcome.apiError (some "API request timed out") none) 3 "m1"
      [("m1", sampleRow "J SMITH" "suspicious")]
      (sampleRow "J SMITH" "suspicious") rfl).1
    (some "API request timed out") none rfl


theorem compare_owner_names_eq_true_iff (threshold : ℚ) (owner : Option String)
    (client : String) :
    compare_owner_names threshold owner client = true ↔
      ∃ o, owner = some o ∧ ¬(o = "") ∧ ¬(client = "") ∧
        threshold ≤ calculate_similarity (strip (o.toList.map Char.toUpper))
          (strip (client.toList.map Char.toUpper)) := by
  cases owner with
  | none => simp [compare_owner_names]
  | some o =>
    rw [compare_owner_names]
    by_cases he : o = "" ∨ client = ""
    · rw [if_pos he]
      constructor
      · intro hcon
        cases hcon
      · rintro ⟨o', ho', h1, h2, _⟩
        cases ho'
        rcases he with he | he
        · exact absurd he h1
        · exact absurd he h2
    · rw [if_neg he]
      rw [not_or] at he
      constructor
      · intro hd
        exact ⟨o, rfl, he.1, he.2, of_decide_eq_true hd⟩
      · rintro ⟨o', ho', _, _, h3⟩
        cases ho'
        exact decide_eq_true h3

/-- Claim C5 is false as stated: with a whitespace-only owner name and a
whitespace-only client name, the similarity of the uppercased names is 100
(at or above any threshold up to 100), yet the code rules the match
not_fraud because it strips the names before comparing. -/
theorem C5_counterexample :
    (85 : ℚ) ≤ calculate_similarity ((" ".toList).map Char.toUpper)
        ((" ".toList).map Char.toUpper) ∧
    (verify_single_match 85 (fun _ _ _ => ApiOutcome.success (some " ") none) 0 "m1"
        [("m1", sampleRow " " "suspicious")]).1.verification_status = "not_fraud" := by
  constructor
  · rw [show calculate_similarity ((" ".toList).map Char.toUpper)
        ((" ".toList).map Char.toUpper) = 100 from rfl]
    decide
  · rfl

/-- Claim C5, amended: on a successful lookup the match is confirmed_fraud
exactly when the owner name is present and both names are non-empty and the
similarity of the uppercased, whitespace-stripped names reaches the
configured threshold; otherwise it is not_fraud; is_confirmed_fraud agrees
with the status, and the returned owner name is stored in
verified_owner_name. -/
theorem C5_amended_success_decision (threshold : ℚ) (api : ApiClient)
    (now : Nat) (id : String) (db : DB) (fm : FraudMatchRow)
    (owner : Option String) (raw : Option String)
    (hg : dbGet db id = some fm)
    (hapi : api fm.ppd_full_address fm.ppd_postcode fm.property_listing.client_name
      = ApiOutcome.success owner raw) :
    ((verify_single_match threshold api now id db).1.verification_status
        = "confirmed_fraud" ↔
      ∃ o, owner = some o ∧ ¬(o = "") ∧ ¬(fm.property_listing.client_name = "") ∧
        threshold ≤ calculate_similarity (strip (o.toList.map Char.toUpper))
          (strip (fm.property_listing.client_name.toList.map Char.toUpper))) ∧
    ((verify_single_match threshold api now id db).1.verification_status
        = "confirmed_fraud" ∨
     (verify_single_match threshold api now id db).1.verification_status
        = "not_fraud") ∧
    ((verify_single_match threshold api now id db).1.is_confirmed_fraud = true ↔
      (verify_single_match threshold api now id db).1.verification_status
        = "confirmed_fraud") ∧
    (∃ fm', dbGet (verify_single_match threshold api now id db).2 id = some fm' ∧
      fm'.verified_owner_name = owner) := by
  cases hc : compare_owner_names threshold owner fm.property_listing.client_name
  · rw [verify_single_match_success_not hg hapi hc]
    refine ⟨?_, Or.inr rfl, ?_, ⟨_, dbGet_dbSet_self hg, rfl⟩⟩
    · constructor
      · intro hcon
        have hcon' : ("not_fraud" : String) = "confirmed_fraud" := hcon
        exact absurd hcon' (by decide)
      · intro hex
        rw [(compare_owner_names_eq_true_iff threshold owner
          fm.property_listing.client_name).mpr hex] at hc
        cases hc
    · constructor
      · intro hcon
        have hcon' : (false : Bool) = true := hcon
        cases hcon'
      · intro hcon
        have hcon' : ("not_fraud" : String) = "confirmed_fraud" := hcon
        exact absurd hcon' (by decide)
  · rw [verify_single_match_success_confirmed hg hapi hc]
    refine ⟨?_, Or.inl rfl, ?_, ⟨_, dbGet_dbSet_self hg, rfl⟩⟩
    · constructor
      · intro _
        exact (compare_owner_names_eq_true_iff threshold owner
          fm.property_listing.client_name).mp hc
      · intro _
        rfl
    · constructor
      · intro _
        rfl
      · intro _
        rfl

/-- Witness for the amended C5 at a concrete database and lookup. -/
theorem C5_witness :
    ((verify_single_match 85
        (fun _ _ _ => ApiOutcome.success (some "J SMITH") none) 4 "m1"
        [("m1", sampleRow "J SMITH" "suspicious")]).1.verification_status
        = "confirmed_fraud" ↔
      ∃ o, (some "J SMITH" : Option String) = some o ∧ ¬(o = "") ∧
        ¬((sampleRow "J SMITH" "suspicious").property_listing.client_name = "") ∧
        (85 : ℚ) ≤ calculate_similarity (strip (o.toList.map Char.toUpper))
          (strip ((sampleRow "J SMITH"
            "suspicious").property_listing.client_name.toList.map Char.toUpper))) ∧
    ((verify_single_match 85
        (fun _ _ _ => ApiOutcome.success (some "J SMITH") none) 4 "m1"
        [("m1", sampleRow "J SMITH" "suspicious")]).1.verification_status
        = "confirmed_fraud" ∨
     (verify_single_match 85
        (fun _ _ _ => ApiOutcome.success (some "J SMITH") none) 4 "m1"
        [("m1", sampleRow "J SMITH" "suspicious")]).1.verification_status
        = "not_fraud") ∧
    ((verify_single_match 85
        (fun _ _ _ => ApiOutcome.success (some "J SMITH") none) 4 "m1"
        [("m1", sampleRow "J SMITH" "suspicious")]).1.is_confirmed_fraud = true ↔
      (verify_single_match 85
        (fun _ _ _ => ApiOutcome.success (some "J SMITH") none) 4 "m1"
        [("m1", sampleRow "J SMITH" "suspicious")]).1.verification_status
        = "confirmed_fraud") ∧
    (∃ fm', dbGet (verify_single_match 85
        (fun _ _ _ => ApiOutcome.success (some "J SMITH") none) 4 "m1"
        [("m1", sampleRow "J SMITH" "suspicious")]).2 "m1" = some fm' ∧
      fm'.verified_owner_name = some "J SMITH") :=
  C5_amended_success_decision 85
    (fun _ _ _ => ApiOutcome.success (some "J SMITH") none) 4 "m1"
    [("m1", sampleRow "J SMITH" "suspicious")]
    (sampleRow "J SMITH" "suspicious") (some "J SMITH") none rfl rfl


theorem verify_single_match_id (threshold : ℚ) (api : ApiClient) (now : Nat)
    (id : String) (db : DB) :
    (verify_single_match threshold api now id db).1.match_id = id := by
  cases hg : dbGet db id with
  | none =>
    rw [verify_single_match_unknown hg]
    rfl
  | some fm =>
    cases hapi : api fm.ppd_full_address fm.ppd_postcode
        fm.property_listing.client_name with
    | exn msg => rw [verify_single_match_exn hg hapi]
    | apiError emsg raw => rw [verify_single_match_apiError hg hapi]
    | success owner raw =>
      cases hc : compare_owner_names threshold owner fm.property_listing.client_name
      · rw [verify_single_match_success_not hg hapi hc]
      · rw [verify_single_match_success_confirmed hg hapi hc]

theorem verifyLoop_cons (threshold : ℚ) (api : ApiClient) (now : Nat)
    (id : String) (ids : List String) (db : DB) :
    verifyLoop threshold api now (id :: ids) db =
      tallyCons (verify_single_match threshold api now id db).1
        (verifyLoop threshold api now ids
          (verify_single_match threshold api now id db).2) := rfl

theorem verifyLoop_spec (threshold : ℚ) (api : ApiClient) (now : Nat) :
    ∀ (ids : List String) (db : DB),
      (verifyLoop threshold api now ids db).1.length = ids.length ∧
      ((verifyLoop threshold api now ids db).1.map fun r => r.match_id) = ids ∧
      (verifyLoop threshold api now ids db).2.1 +
        (verifyLoop threshold api now ids db).2.2.1 +
        (verifyLoop threshold api now ids db).2.2.2.1 = ids.length ∧
      (verifyLoop threshold api now ids db).2.2.2.1
        = ((verifyLoop threshold api now ids db).1.countP fun r =>
            decide (¬(r.verification_status = "confirmed_fraud") ∧
                    ¬(r.verification_status = "not_fraud"))) ∧
      (verifyLoop threshold api now ids db).2.1
        = ((verifyLoop threshold api now ids db).1.countP fun r =>
            decide (r.verification_status = "confirmed_fraud")) ∧
      (verifyLoop threshold api now ids db).2.2.1
        = ((verifyLoop threshold api now ids db).1.countP fun r =>
            decide (¬(r.verification_status = "confirmed_fraud") ∧
                    r.verification_status = "not_fraud")) := by
  intro ids
  induction ids with
  | nil => intro db; exact ⟨rfl, rfl, rfl, rfl, rfl, rfl⟩
  | cons id ids ih =>
    intro db
    obtain ⟨h1, h2, h3, h4, h5, h6⟩ :=
      ih (verify_single_match threshold api now id db).2
    have hrid := verify_single_match_id threshold api now id db
    rw [verifyLoop_cons]
    refine ⟨?_, ?_, ?_, ?_, ?_, ?_⟩
    · simp [tallyCons, h1]
    · simp [tallyCons, hrid, h2]
    · by_cases hcf : (verify_single_match threshold api now id db).1.verification_status
          = "confirmed_fraud"
      · simp only [tallyCons, hcf, List.length_cons]
        simp
        omega
      · by_cases hnf : (verify_single_match threshold api now id db).1.verification_status
            = "not_fraud"
        · simp only [tallyCons, List.length_cons]
          simp [hcf, hnf]
          omega
        · simp only [tallyCons, List.length_cons]
          simp [hcf, hnf]
          omega
    · by_cases hcf : (verify_single_match threshold api now id db).1.verification_status
          = "confirmed_fraud"
      · simp [tallyCons, List.countP_cons, hcf, h4, Nat.add_comm]
      · by_cases hnf : (verify_single_match threshold api now id db).1.verification_status
            = "not_fraud"
        · simp [tallyCons, List.countP_cons, hcf, hnf, h4, Nat.add_comm]
        · simp [tallyCons, List.countP_cons, hcf, hnf, h4, Nat.add_comm]
    · by_cases hcf : (verify_single_match threshold api now id db).1.verification_status
          = "confirmed_fraud"
      · simp [tallyCons, List.countP_cons, hcf, h5, Nat.add_comm]
      · simp [tallyCons, List.countP_cons, hcf, h5, Nat.add_comm]
    · by_cases hcf : (verify_single_match threshold api now id db).1.verification_status
          = "confirmed_fraud"
      · simp [tallyCons, List.countP_cons, hcf, h6, Nat.add_comm]
      · by_cases hnf : (verify_single_match threshold api now id db).1.verification_status
            = "not_fraud"
        · simp [tallyCons, List.countP_cons, hcf, hnf, h6, Nat.add_comm]
        · simp [tallyCons, List.countP_cons, hcf, hnf, h6, Nat.add_comm]

/-- Claim C9: the summary satisfies: total_verified equals the number of
input ids, results holds exactly one result per input id in input order,
the three counters sum to the total, and every result whose status is
neither confirmed_fraud nor not_fraud is counted in the error bucket. -/
theorem C9_summary_invariants (threshold : ℚ) (api : ApiClient) (now : Nat)
    (match_ids : List String) (db : DB) :
    (verify_suspicious_matches threshold api now match_ids db).1.total_verified
        = match_ids.length ∧
    ((verify_suspicious_matches threshold api now match_ids db).1.results.map
        fun r => r.match_id) = match_ids ∧
    (verify_suspicious_matches threshold api now match_ids db).1.results.length
        = match_ids.length ∧
    (verify_suspicious_matches threshold api now match_ids db).1.confirmed_fraud_count
      + (verify_suspicious_matches threshold api now match_ids db).1.not_fraud_count
      + (verify_suspicious_matches threshold api now match_ids db).1.error_count
        = match_ids.length ∧
    (verify_suspicious_matches threshold api now match_ids db).1.error_count
      = ((verify_suspicious_matches threshold api now match_ids db).1.results.countP
          fun r => decide (¬(r.verification_status = "confirmed_fraud") ∧
                           ¬(r.verification_status = "not_fraud"))) := by
  obtain ⟨h1, h2, h3, h4, _, _⟩ := verifyLoop_spec threshold api now match_ids db
  exact ⟨rfl, h2, h1, h3, h4⟩


theorem verifyLoop_append (threshold : ℚ) (api : ApiClient) (now : Nat) :
    ∀ (xs ys : List String) (db : DB),
      (verifyLoop threshold api now (xs ++ ys) db).1
        = (verifyLoop threshold api now xs db).1 ++
          (verifyLoop threshold api now ys
            (verifyLoop threshold api now xs db).2.2.2.2).1 ∧
      (verifyLoop threshold api now (xs ++ ys) db).2.1
        = (verifyLoop threshold api now xs db).2.1 +
          (verifyLoop threshold api now ys
            (verifyLoop threshold api now xs db).2.2.2.2).2.1 ∧
      (verifyLoop threshold api now (xs ++ ys) db).2.2.1
        = (verifyLoop threshold api now xs db).2.2.1 +
          (verifyLoop threshold api now ys
            (verifyLoop threshold api now xs db).2.2.2.2).2.2.1 ∧
      (verifyLoop threshold api now (xs ++ ys) db).2.2.2.1
        = (verifyLoop threshold api now xs db).2.2.2.1 +
          (verifyLoop threshold api now ys
            (verifyLoop threshold api now xs db).2.2.2.2).2.2.2.1 ∧
      (verifyLoop threshold api now (xs ++ ys) db).2.2.2.2
        = (verifyLoop threshold api now ys
            (verifyLoop threshold api now xs db).2.2.2.2).2.2.2.2 := by
  intro xs
  induction xs with
  | nil =>
    intro ys db
    exact ⟨rfl, (Nat.zero_add _).symm, (Nat.zero_add _).symm,
           (Nat.zero_add _).symm, rfl⟩
  | cons id xs ih =>
    intro ys db
    obtain ⟨h1, h2, h3, h4, h5⟩ := ih ys (verify_single_match threshold api now id db).2
    rw [show (id :: xs) ++ ys = id :: (xs ++ ys) from rfl, verifyLoop_cons,
      verifyLoop_cons]
    refine ⟨?_, ?_, ?_, ?_, ?_⟩
    · simp [tallyCons, h1]
    · simp [tallyCons, h2, Nat.add_assoc]
    · simp [tallyCons, h3, Nat.add_assoc]
    · simp [tallyCons, h4, Nat.add_assoc]
    · simp [tallyCons, h5]

theorem verifyLoop_db_none (threshold : ℚ) (api : ApiClient) (now : Nat) :
    ∀ (ids : List String) (db : DB) (j : String),
      dbGet db j = none →
      dbGet (verifyLoop threshold api now ids db).2.2.2.2 j = none := by
  intro ids
  induction ids with
  | nil => intro db j h; exact h
  | cons id ids ih =>
    intro db j h
    rw [verifyLoop_cons]
    exact ih _ j (verify_single_match_db h)

/-- Claim C2: each id of a batch is processed independently; an unknown id
contributes exactly one error result (counted in the error bucket) at its
position, leaves the database untouched, and leaves the results and counts
for all other ids exactly as they would be without it. -/
theorem C2_unknown_id_isolated (threshold : ℚ) (api : ApiClient) (now : Nat)
    (xs ys : List String) (bad : String) (db : DB)
    (hbad : dbGet db bad = none) :
    (verify_suspicious_matches threshold api now (xs ++ bad :: ys) db).1.results
      = (verify_suspicious_matches threshold api now (xs ++ ys) db).1.results.take
          xs.length
        ++ notFoundResult bad now ::
          (verify_suspicious_matches threshold api now (xs ++ ys) db).1.results.drop
            xs.length ∧
    (notFoundResult bad now).verification_status = "error" ∧
    (verify_suspicious_matches threshold api now (xs ++ bad :: ys) db).1.confirmed_fraud_count
      = (verify_suspicious_matches threshold api now (xs ++ ys) db).1.confirmed_fraud_count ∧
    (verify_suspicious_matches threshold api now (xs ++ bad :: ys) db).1.not_fraud_count
      = (verify_suspicious_matches threshold api now (xs ++ ys) db).1.not_fraud_count ∧
    (verify_suspicious_matches threshold api now (xs ++ bad :: ys) db).1.error_count
      = (verify_suspicious_matches threshold api now (xs ++ ys) db).1.error_count + 1 ∧
    (verify_suspicious_matches threshold api now (xs ++ bad :: ys) db).2
      = (verify_suspicious_matches threshold api now (xs ++ ys) db).2 := by
  have hbad1 : dbGet (verifyLoop threshold api now xs db).2.2.2.2 bad = none :=
    verifyLoop_db_none threshold api now xs db bad hbad
  have hvb : verify_single_match threshold api now bad
      (verifyLoop threshold api now xs db).2.2.2.2
      = (notFoundResult bad now, (verifyLoop threshold api now xs db).2.2.2.2) :=
    verify_single_match_unknown hbad1
  obtain ⟨a1, a2, a3, a4, a5⟩ := verifyLoop_append threshold api now xs (bad :: ys) db
  obtain ⟨b1, b2, b3, b4, b5⟩ := verifyLoop_append threshold api now xs ys db
  have hlen : (verifyLoop threshold api now xs db).1.length = xs.length :=
    (verifyLoop_spec threshold api now xs db).1
  have hloopbad : verifyLoop threshold api now (bad :: ys)
      (verifyLoop threshold api now xs db).2.2.2.2
      = tallyCons (notFoundResult bad now)
          (verifyLoop threshold api now ys
            (verifyLoop threshold api now xs db).2.2.2.2) := by
    rw [verifyLoop_cons, hvb]
  refine ⟨?_, rfl, ?_, ?_, ?_, ?_⟩
  · show (verifyLoop threshold api now (xs ++ bad :: ys) db).1
      = ((verifyLoop threshold api now (xs ++ ys) db).1).take xs.length
        ++ notFoundResult bad now ::
          ((verifyLoop threshold api now (xs ++ ys) db).1).drop xs.length
    rw [a1, hloopbad]
    have htake : ((verifyLoop threshold api now (xs ++ ys) db).1).take xs.length
        = (verifyLoop threshold api now xs db).1 := by
      rw [b1, ← hlen, List.take_left]
    have hdrop : ((verifyLoop threshold api now (xs ++ ys) db).1).drop xs.length
        = (verifyLoop threshold api now ys
            (verifyLoop threshold api now xs db).2.2.2.2).1 := by
      rw [b1, ← hlen, List.drop_left]
    rw [htake, hdrop]
    rfl
  · show (verifyLoop threshold api now (xs ++ bad :: ys) db).2.1
      = (verifyLoop threshold api now (xs ++ ys) db).2.1
    rw [a2, hloopbad, b2]
    simp [tallyCons, notFoundResult]
  · show (verifyLoop threshold api now (xs ++ bad :: ys) db).2.2.1
      = (verifyLoop threshold api now (xs ++ ys) db).2.2.1
    rw [a3, hloopbad, b3]
    simp [tallyCons, notFoundResult]
  · show (verifyLoop threshold api now (xs ++ bad :: ys) db).2.2.2.1
      = (verifyLoop threshold api now (xs ++ ys) db).2.2.2.1 + 1
    rw [a4, hloopbad, b4]
    simp [tallyCons, notFoundResult]
    omega
  · show (verifyLoop threshold api now (xs ++ bad :: ys) db).2.2.2.2
      = (verifyLoop threshold api now (xs ++ ys) db).2.2.2.2
    rw [a5, hloopbad, b5]
    rfl

/-- Witness for C2: a batch of one known id followed by one unknown id. -/
theorem C2_witness :
    (verify_suspicious_matches 85
        (fun _ _ _ => ApiOutcome.apiError (some "API request timed out") none) 5
        (["m1"] ++ "zz" :: []) [("m1", sampleRow "J SMITH" "suspicious")]).1.results
      = (verify_suspicious_matches 85
          (fun _ _ _ => ApiOutcome.apiError (some "API request timed out") none) 5
          (["m1"] ++ []) [("m1", sampleRow "J SMITH" "suspicious")]).1.results.take 1
        ++ notFoundResult "zz" 5 ::
          (verify_suspicious_matches 85
            (fun _ _ _ => ApiOutcome.apiError (some "API request timed out") none) 5
            (["m1"] ++ []) [("m1", sampleRow "J SMITH" "suspicious")]).1.results.drop 1 ∧
    (notFoundResult "zz" 5).verification_status = "error" ∧
    (verify_suspicious_matches 85
        (fun _ _ _ => ApiOutcome.apiError (some "API request timed out") none) 5
        (["m1"] ++ "zz" :: []) [("m1", sampleRow "J SMITH" "suspicious")]).1.confirmed_fraud_count
      = (verify_suspicious_matches 85
          (fun _ _ _ => ApiOutcome.apiError (some "API request timed out") none) 5
          (["m1"] ++ []) [("m1", sampleRow "J SMITH" "suspicious")]).1.confirmed_fraud_count ∧
    (verify_suspicious_matches 85
        (fun _ _ _ => ApiOutcome.apiError (some "API request timed out") none) 5
        (["m1"] ++ "zz" :: []) [("m1", sampleRow "J SMITH" "suspicious")]).1.not_fraud_count
      = (verify_suspicious_matches 85
          (fun _ _ _ => ApiOutcome.apiError (some "API request timed out") none) 5
          (["m1"] ++ []) [("m1", sampleRow "J SMITH" "suspicious")]).1.not_fraud_count ∧
    (verify_suspicious_matches 85
        (fun _ _ _ => ApiOutcome.apiError (some "API request timed out") none) 5
        (["m1"] ++ "zz" :: []) [("m1", sampleRow "J SMITH" "suspicious")]).1.error_count
      = (verify_suspicious_matches 85
          (fun _ _ _ => ApiOutcome.apiError (some "API request timed out") none) 5
          (["m1"] ++ []) [("m1", sampleRow "J SMITH" "suspicious")]).1.error_count + 1 ∧
    (verify_suspicious_matches 85
        (fun _ _ _ => ApiOutcome.apiError (some "API request timed out") none) 5
        (["m1"] ++ "zz" :: []) [("m1", sampleRow "J SMITH" "suspicious")]).2
      = (verify_suspicious_matches 85
          (fun _ _ _ => ApiOutcome.apiError (some "API request timed out") none) 5
          (["m1"] ++ []) [("m1", sampleRow "J SMITH" "suspicious")]).2 :=
  C2_unknown_id_isolated 85
    (fun _ _ _ => ApiOutcome.apiError (some "API request timed out") none) 5
    ["m1"] [] "zz" [("m1", sampleRow "J SMITH" "suspicious")] rfl


/-- Claim C8 (against the spec-modelled ingest): when the source identity
already has an IngestRecord and force is false, the call is rejected up
front as an idempotent no-op: successful = 0 with no errors reported, and
the state — the transaction store included — is left unchanged. -/
theorem C8_reingest_noop (source_identity period_key : String)
    (rows : List IngestRow) (st : IngestState)
    (h : (st.history.any fun hr => hr.source_identity == source_identity) = true) :
    (ingest source_identity period_key rows false st).1.successful = 0 ∧
    (ingest source_identity period_key rows false st).1.errors = [] ∧
    (ingest source_identity period_key rows false st).2 = st ∧
    (ingest source_identity period_key rows false st).2.store = st.store := by
  rw [ingest, if_pos (by rw [h]; rfl :
    ((st.history.any fun hr => hr.source_identity == source_identity) && !false)
      = true)]
  exact ⟨rfl, rfl, rfl, rfl⟩

/-- Witness for C8: a second ingest of the same source identity without
force at a concrete state. -/
theorem C8_witness :
    (ingest "pp-2024.csv" "2024"
        [{ postcode := some "SW1A 1AA", address := some "12 EXAMPLE ROAD",
           price := some "350000", transfer_date := some "2024-06-15" }] false
        { history := [{ source_identity := "pp-2024.csv", period_key := "2024",
                        record_count := 10 }],
          store := [("2024", [])] }).1.successful = 0 ∧
    (ingest "pp-2024.csv" "2024"
        [{ postcode := some "SW1A 1AA", address := some "12 EXAMPLE ROAD",
           price := some "350000", transfer_date := some "2024-06-15" }] false
        { history := [{ source_identity := "pp-2024.csv", period_key := "2024",
                        record_count := 10 }],
          store := [("2024", [])] }).1.errors = [] ∧
    (ingest "pp-2024.csv" "2024"
        [{ postcode := some "SW1A 1AA", address := some "12 EXAMPLE ROAD",
           price := some "350000", transfer_date := some "2024-06-15" }] false
        { history := [{ source_identity := "pp-2024.csv", period_key := "2024",
                        record_count := 10 }],
          store := [("2024", [])] }).2 =
      { history := [{ source_identity := "pp-2024.csv", period_key := "2024",
                      record_count := 10 }],
        store := [("2024", [])] } ∧
    (ingest "pp-2024.csv" "2024"
        [{ postcode := some "SW1A 1AA", address := some "12 EXAMPLE ROAD",
           price := some "350000", transfer_date := some "2024-06-15" }] false
        { history := [{ source_identity := "pp-2024.csv", period_key := "2024",
                        record_count := 10 }],
          store := [("2024", [])] }).2.store = [("2024", [])] :=
  C8_reingest_noop "pp-2024.csv" "2024" _ _ rfl

end PropertyEye
